import Mathlib

/-!
Shallow embedding of `src/transcribe.py` (video transcription tool) and
verification of the specification's claims about it.

Conventions:
* Python floats are modelled as rationals (`ℚ`); `int(x)` on a non-negative
  value is `Int.floor`, Python `//` is floor division, and `x % m` for a
  positive modulus `m` is `x - m * ⌊x / m⌋`.
* Python strings are Lean `String`s (sequences of Unicode code points).
* Writing a file is modelled by returning the written content; a Python
  function that may raise returns in `Except`.
-/

unseal Rat.ofScientific Rat.mul Rat.inv Rat.add Rat.sub

namespace Transcribe

/-- Python `a % b` on rationals for `b > 0` (result in `[0, b)`). -/
def pymod (a b : ℚ) : ℚ := a - b * ⌊a / b⌋

/-- Decimal digit characters of a natural number, most significant first,
fuel-bounded (`natDigits` always supplies enough fuel). -/
def natDigitsAux : Nat → Nat → List Char
  | 0, _ => []
  | fuel + 1, n =>
    if n < 10 then [Char.ofNat (48 + n)]
    else natDigitsAux fuel (n / 10) ++ [Char.ofNat (48 + n % 10)]

/-- Decimal digit characters of a natural number, most significant first. -/
def natDigits (n : Nat) : List Char := natDigitsAux (n + 1) n

/-- Decimal rendering of a natural number (Python `str` on a non-negative
int). -/
def natRepr (n : Nat) : String := String.mk (natDigits n)

/-- Zero-pad the decimal form of `n` on the left to at least `w` characters:
Python `f"{n:0wd}"` for non-negative `n`. -/
def padZero (w : Nat) (n : Nat) : String :=
  let s := natRepr n
  String.mk (List.replicate (w - s.length) '0') ++ s

/-- Concatenation of a list of strings. -/
def concatList (l : List String) : String := l.foldr (· ++ ·) ""

/-- Embedding of `format_srt_timestamp` from the source (lines 183-189):
`hours = int(seconds // 3600)`, `minutes = int((seconds % 3600) // 60)`,
`secs = int(seconds % 60)`, `millis = int((seconds % 1) * 1000)`,
rendered as `f"{hours:02d}:{minutes:02d}:{secs:02d},{millis:03d}"`. -/
def format_srt_timestamp (seconds : ℚ) : String :=
  let hours : Int := ⌊seconds / 3600⌋
  let minutes : Int := ⌊pymod seconds 3600 / 60⌋
  let secs : Int := ⌊pymod seconds 60⌋
  let millis : Int := ⌊pymod seconds 1 * 1000⌋
  padZero 2 hours.toNat ++ ":" ++ padZero 2 minutes.toNat ++ ":"
    ++ padZero 2 secs.toNat ++ "," ++ padZero 3 millis.toNat

/-- Rendering `str(datetime.timedelta(seconds = n))` for a non-negative whole number
of seconds `n`, following CPython `timedelta.__str__`: hours unpadded,
minutes and seconds zero-padded to two digits, and a `"D day[s], "` prefix
when the duration reaches 24 hours. -/
def timedeltaStr (n : Nat) : String :=
  let days := n / 86400
  let rem := n % 86400
  let core := natRepr (rem / 3600) ++ ":" ++ padZero 2 (rem % 3600 / 60)
    ++ ":" ++ padZero 2 (rem % 60)
  if days = 0 then core
  else natRepr days ++ (if days = 1 then " day, " else " days, ") ++ core

/-- Embedding of `format_timestamp` from the source (lines 96-98):
`str(timedelta(seconds=int(seconds)))`. -/
def format_timestamp (seconds : ℚ) : String :=
  timedeltaStr ⌊seconds⌋.toNat

/-- Python `str.isspace` for a single character: the Unicode whitespace
code points recognized by CPython. -/
def pyIsSpace (c : Char) : Bool :=
  (0x09 ≤ c.toNat && c.toNat ≤ 0x0d) || (0x1c ≤ c.toNat && c.toNat ≤ 0x1f)
    || c.toNat = 0x20 || c.toNat = 0x85 || c.toNat = 0xa0 || c.toNat = 0x1680
    || (0x2000 ≤ c.toNat && c.toNat ≤ 0x200a)
    || c.toNat = 0x2028 || c.toNat = 0x2029 || c.toNat = 0x202f
    || c.toNat = 0x205f || c.toNat = 0x3000

/-- Python `str.strip()`: remove leading and trailing whitespace. -/
def pyStrip (s : String) : String :=
  String.mk (((s.data.dropWhile pyIsSpace).reverse.dropWhile pyIsSpace).reverse)

/-- One timed segment as produced by the speech-recognition capability.
Besides `start`, `end_`, `text` (the fields the formatters use), Whisper
segments carry further fields; representative ones are included so that
"extra fields are dropped" is expressible. `end` is a Lean keyword, hence
`end_`. -/
structure Segment where
  id : Int
  seek : Int
  start : ℚ
  end_ : ℚ
  text : String
  temperature : ℚ
  avg_logprob : ℚ
  deriving Repr, DecidableEq

/-- The transcription result dictionary: full `text`, detected `language`,
the ordered `segments`, and the recorded elapsed time. -/
structure PyResult where
  text : String
  language : String
  segments : List Segment
  transcription_time : ℚ
  deriving Repr, DecidableEq

/-- The cue timing line `<start> --> <end>` shared by the SRT and WebVTT
branches (lines 164-165 and 176-177). -/
def tsRange (a b : ℚ) : String :=
  format_srt_timestamp a ++ " --> " ++ format_srt_timestamp b

/-- One SRT cue as written by the `srt` branch of `save_transcription`
(lines 163-168): index line, timestamp range line, stripped text, blank
line. -/
def srtCue (i : Nat) (seg : Segment) : String :=
  natRepr i ++ "\n"
    ++ tsRange seg.start seg.end_ ++ "\n"
    ++ pyStrip seg.text ++ "\n\n"

/-- The `for i, segment in enumerate(result["segments"], start=1)` loop of
the `srt` branch, threading the running index. -/
def srtBody : Nat → List Segment → String
  | _, [] => ""
  | i, seg :: rest => srtCue i seg ++ srtBody (i + 1) rest

/-- Content written by the `srt` branch of `save_transcription`
(lines 160-169). -/
def srtRender (r : PyResult) : String := srtBody 1 r.segments

/-- One WebVTT cue as written by the `vtt` branch (lines 175-179):
timestamp range line then stripped text then blank line — no index. -/
def vttCue (seg : Segment) : String :=
  tsRange seg.start seg.end_ ++ "\n"
    ++ pyStrip seg.text ++ "\n\n"

/-- Content written by the `vtt` branch of `save_transcription`
(lines 171-180): the `WEBVTT` header, a blank line, then the cues. -/
def vttRender (r : PyResult) : String :=
  "WEBVTT\n\n" ++ concatList (r.segments.map vttCue)

/-- Split a character sequence at newline characters (the lines of a text,
final fragment included). -/
def splitLines : List Char → List (List Char)
  | [] => [[]]
  | c :: rest =>
    if c = '\n' then [] :: splitLines rest
    else
      match splitLines rest with
      | l :: t => (c :: l) :: t
      | [] => []

/-- A numeric line: non-empty and consisting only of decimal digits, the
shape of an SRT cue-index line. -/
def isNumericLine (l : List Char) : Bool :=
  !l.isEmpty && l.all Char.isDigit

mutual

/-- JSON values (the fragment the program emits: strings, numbers, arrays,
objects with ordered key/value lists), as a mutual inductive so that the
serializer is plain structural recursion. -/
inductive Json where
  | str : String → Json
  | num : ℚ → Json
  | arr : JsonArr → Json
  | obj : JsonObj → Json

/-- The items of a JSON array. -/
inductive JsonArr where
  | nil : JsonArr
  | cons : Json → JsonArr → JsonArr

/-- The ordered key/value entries of a JSON object. -/
inductive JsonObj where
  | nil : JsonObj
  | cons : String → Json → JsonObj → JsonObj

end

/-- Lowercase hexadecimal digit. -/
def hexDigit (n : Nat) : Char :=
  if n < 10 then Char.ofNat (48 + n) else Char.ofNat (87 + n)

/-- How CPython `json.dump` with `ensure_ascii=False` renders one character
inside a string literal: only `"`, `\` and control characters below U+0020
are escaped; everything else — non-ASCII included — passes through
unchanged. -/
def escapeChar (c : Char) : String :=
  if c = '"' then "\\\""
  else if c = '\\' then "\\\\"
  else if c = '\n' then "\\n"
  else if c = '\t' then "\\t"
  else if c = '\r' then "\\r"
  else if c.toNat = 8 then "\\b"
  else if c.toNat = 12 then "\\f"
  else if c.toNat < 0x20 then
    String.mk ['\\', 'u', '0', '0', hexDigit (c.toNat / 16), hexDigit (c.toNat % 16)]
  else String.singleton c

/-- A JSON string literal: quotes around the escaped characters. -/
def dumpStr (s : String) : String :=
  "\"" ++ concatList (s.data.map escapeChar) ++ "\""

/-- Decimal digits of a fractional part in `[0, 1)`, fuel-bounded (enough
fuel for every terminating decimal the program prints). -/
def fracDigits : Nat → ℚ → List Char
  | 0, _ => []
  | fuel + 1, q =>
    if q = 0 then []
    else
      let d := ⌊q * 10⌋
      Char.ofNat (48 + d.toNat % 10) :: fracDigits fuel (q * 10 - d)

/-- Python `repr` of a float holding the (decimal-exact) value `q`: integer
part, a dot, and the fractional digits (`.0` when the value is whole). -/
def numRepr (q : ℚ) : String :=
  let sign := if q < 0 then "-" else ""
  let a := |q|
  let fp := a - ⌊a⌋
  sign ++ natRepr ⌊a⌋.toNat ++ "."
    ++ (if fp = 0 then "0" else String.mk (fracDigits 20 fp))

/-- Indentation produced by `json.dump(..., indent=2)` at nesting level
`lvl`. -/
def indentStr (lvl : Nat) : String := String.mk (List.replicate (2 * lvl) ' ')

mutual

/-- CPython `json.dump(value, f, indent=2, ensure_ascii=False)`: item
separator `,\n`, key separator `: `, two-space indentation per level,
empty containers on one line. -/
def dumpVal (lvl : Nat) : Json → String
  | .str s => dumpStr s
  | .num q => numRepr q
  | .arr .nil => "[]"
  | .arr (.cons x xs) =>
    "[\n" ++ dumpItems (lvl + 1) (.cons x xs) ++ "\n" ++ indentStr lvl ++ "]"
  | .obj .nil => "\x7b\x7d"
  | .obj (.cons k v kvs) =>
    "\x7b\n" ++ dumpEntries (lvl + 1) (.cons k v kvs) ++ "\n" ++ indentStr lvl ++ "\x7d"

/-- The comma-and-newline separated items of a non-empty JSON array
(yields `""` on the empty array, which `dumpVal` never passes). -/
def dumpItems (lvl : Nat) : JsonArr → String
  | .nil => ""
  | .cons x .nil => indentStr lvl ++ dumpVal lvl x
  | .cons x (.cons y ys) =>
    indentStr lvl ++ dumpVal lvl x ++ ",\n" ++ dumpItems lvl (.cons y ys)

/-- The comma-and-newline separated entries of a non-empty JSON object
(yields `""` on the empty object, which `dumpVal` never passes). -/
def dumpEntries (lvl : Nat) : JsonObj → String
  | .nil => ""
  | .cons k v .nil => indentStr lvl ++ dumpStr k ++ ": " ++ dumpVal lvl v
  | .cons k v (.cons k2 v2 es) =>
    indentStr lvl ++ dumpStr k ++ ": " ++ dumpVal lvl v ++ ",\n"
      ++ dumpEntries lvl (.cons k2 v2 es)

end

/-- Serialize a complete JSON document: `json.dump(j, f, indent=2,
ensure_ascii=False)`. -/
def dumps (j : Json) : String := dumpVal 0 j

/-- The JSON array holding one object per segment, reduced to `start`,
`end`, `text` (the list comprehension at lines 147-154). -/
def segsToJson : List Segment → JsonArr
  | [] => .nil
  | seg :: rest =>
    .cons (.obj (.cons "start" (.num seg.start) (.cons "end" (.num seg.end_)
      (.cons "text" (.str seg.text) .nil)))) (segsToJson rest)

/-- The `output_data` dictionary built by the `json` branch of
`save_transcription` (lines 144-155): keys `text`, `language`, `segments`
in that order, each segment reduced to `start`, `end`, `text`. -/
def jsonOutput (r : PyResult) : Json :=
  .obj (.cons "text" (.str r.text) (.cons "language" (.str r.language)
    (.cons "segments" (.arr (segsToJson r.segments)) .nil)))

/-- Read one reduced segment back out of its JSON object: succeeds only on
an object with exactly the keys `start`, `end`, `text` in that order. -/
def segOfJson : Json → Option (ℚ × ℚ × String)
  | .obj (.cons "start" (.num a) (.cons "end" (.num b)
      (.cons "text" (.str t) .nil))) => some (a, b, t)
  | _ => none

/-- Read each array item back as a reduced segment. -/
def segsOfJson : JsonArr → Option (List (ℚ × ℚ × String))
  | .nil => some []
  | .cons x xs =>
    match segOfJson x, segsOfJson xs with
    | some s, some rest => some (s :: rest)
    | _, _ => none

/-- Read the whole emitted object back: succeeds only on an object with
exactly the keys `text`, `language`, `segments` in that order. -/
def decodeOutput : Json → Option (String × String × List (ℚ × ℚ × String))
  | .obj (.cons "text" (.str t) (.cons "language" (.str lg)
      (.cons "segments" (.arr xs) .nil))) =>
    (segsOfJson xs).map fun segs => (t, lg, segs)
  | _ => none

/-- JSON insignificant whitespace skip. -/
def skipWs (l : List Char) : List Char :=
  l.dropWhile fun c => c = ' ' || c = '\n' || c = '\t' || c = '\r'

/-- Value of a hexadecimal digit, if any. -/
def hexVal (c : Char) : Option Nat :=
  if '0' ≤ c ∧ c ≤ '9' then some (c.toNat - 48)
  else if 'a' ≤ c ∧ c ≤ 'f' then some (c.toNat - 87)
  else if 'A' ≤ c ∧ c ≤ 'F' then some (c.toNat - 55)
  else none

/-- Parse the body of a JSON string literal (after the opening quote) up to
and past the closing quote, decoding escapes. -/
def parseStrBody : Nat → List Char → Option (List Char × List Char)
  | 0, _ => none
  | _, [] => none
  | fuel + 1, c :: rest =>
    if c = '"' then some ([], rest)
    else if c = '\\' then
      match rest with
      | [] => none
      | e :: rest2 =>
        if e = 'u' then
          match rest2 with
          | a :: b :: cc :: d :: rest3 =>
            match hexVal a, hexVal b, hexVal cc, hexVal d with
            | some x, some y, some z, some w =>
              (parseStrBody fuel rest3).map fun p =>
                (Char.ofNat (((x * 16 + y) * 16 + z) * 16 + w) :: p.1, p.2)
            | _, _, _, _ => none
          | _ => none
        else
          let dec : Option Char :=
            if e = '"' then some '"'
            else if e = '\\' then some '\\'
            else if e = '/' then some '/'
            else if e = 'n' then some '\n'
            else if e = 't' then some '\t'
            else if e = 'r' then some '\r'
            else if e = 'b' then some (Char.ofNat 8)
            else if e = 'f' then some (Char.ofNat 12)
            else none
          match dec with
          | some ch => (parseStrBody fuel rest2).map fun p => (ch :: p.1, p.2)
          | none => none
    else (parseStrBody fuel rest).map fun p => (c :: p.1, p.2)

/-- Numeric value of a list of decimal digit characters. -/
def digitsToNat (ds : List Char) : Nat :=
  ds.foldl (fun a c => a * 10 + (c.toNat - 48)) 0

/-- Parse a JSON number (optional sign, integer digits, optional fraction). -/
def parseNum (l : List Char) : Option (ℚ × List Char) :=
  let (neg, l1) :=
    match l with
    | c :: rest => if c = '-' then (true, rest) else (false, l)
    | [] => (false, l)
  let ip := l1.takeWhile Char.isDigit
  let l2 := l1.dropWhile Char.isDigit
  if ip.isEmpty then none
  else
    let (fp, l3) :=
      match l2 with
      | c :: rest =>
        if c = '.' then (rest.takeWhile Char.isDigit, rest.dropWhile Char.isDigit)
        else (([] : List Char), l2)
      | [] => (([] : List Char), l2)
    let mag : ℚ := (digitsToNat ip : ℚ) + (digitsToNat fp : ℚ) / ((10 : ℚ) ^ fp.length)
    some (if neg then -mag else mag, l3)

mutual

/-- Fuel-bounded recursive-descent parser for the JSON fragment the
program emits (model of Python `json.loads` on such documents). -/
def parseVal (fuel : Nat) (l : List Char) : Option (Json × List Char) :=
  match fuel with
  | 0 => none
  | fuel + 1 =>
    match skipWs l with
    | [] => none
    | c :: rest =>
      if c = '"' then (parseStrBody (fuel + 1) rest).map fun p => (.str (String.mk p.1), p.2)
      else if c = '[' then
        match skipWs rest with
        | ']' :: r => some (.arr .nil, r)
        | _ => (parseItems fuel rest).map fun p => (.arr p.1, p.2)
      else if c = Char.ofNat 123 then
        match skipWs rest with
        | c2 :: r =>
          if c2 = Char.ofNat 125 then some (.obj .nil, r)
          else (parseEntries fuel rest).map fun p => (.obj p.1, p.2)
        | [] => none
      else (parseNum (c :: rest)).map fun p => (.num p.1, p.2)
termination_by structural fuel

/-- Items of a non-empty JSON array, consuming the closing bracket. -/
def parseItems (fuel : Nat) (l : List Char) : Option (JsonArr × List Char) :=
  match fuel with
  | 0 => none
  | fuel + 1 =>
    match parseVal fuel l with
    | none => none
    | some (j, r) =>
      match skipWs r with
      | ',' :: r2 => (parseItems fuel r2).map fun p => (.cons j p.1, p.2)
      | ']' :: r2 => some (.cons j .nil, r2)
      | _ => none
termination_by structural fuel

/-- Entries of a non-empty JSON object, consuming the closing brace. -/
def parseEntries (fuel : Nat) (l : List Char) : Option (JsonObj × List Char) :=
  match fuel with
  | 0 => none
  | fuel + 1 =>
    match skipWs l with
    | c :: rest =>
      if c = '"' then
        match parseStrBody (fuel + 1) rest with
        | none => none
        | some (k, r) =>
          match skipWs r with
          | ':' :: r2 =>
            match parseVal fuel r2 with
            | none => none
            | some (v, r3) =>
              match skipWs r3 with
              | ',' :: r4 => (parseEntries fuel r4).map fun p => (.cons (String.mk k) v p.1, p.2)
              | c5 :: r4 =>
                if c5 = Char.ofNat 125 then some (.cons (String.mk k) v .nil, r4) else none
              | [] => none
          | _ => none
      else none
    | [] => none
termination_by structural fuel

end

/-- Python `json.loads` on a complete document (model): parse one value and
require only whitespace after it. -/
def json_loads (s : String) : Option Json :=
  match parseVal (s.data.length + 1) s.data with
  | some (j, r) => if skipWs r = [] then some j else none
  | none => none

/-- Embedding of `save_transcription` from the source (lines 133-180), file writing
modelled by the returned content: `Except.ok (some c)` means the branch ran
and wrote `c`, `Except.ok none` means no branch matched (the function falls
through its `if/elif` chain, writes nothing and raises nothing), and
`Except.error` would model an exception (never produced). -/
def save_transcription (result : PyResult) (format_type : String) :
    Except String (Option String) :=
  if format_type = "txt" then .ok (some result.text)
  else if format_type = "json" then .ok (some (dumps (jsonOutput result)))
  else if format_type = "srt" then .ok (some (srtRender result))
  else if format_type = "vtt" then .ok (some (vttRender result))
  else .ok none

/-- The alternatives of the optional regex group `(https?://)?`. -/
def schemeAlts : List (List Char) := [[], "http://".data, "https://".data]

/-- The alternatives of the optional regex group `(www\.)?`. -/
def wwwAlts : List (List Char) := [[], "www.".data]

/-- The alternatives of the regex group `(youtube|youtu|youtube-nocookie)`. -/
def hostAlts : List (List Char) := ["youtube".data, "youtu".data, "youtube-nocookie".data]

/-- The alternatives of the regex group `(com|be)`. -/
def tldAlts : List (List Char) := ["com".data, "be".data]

/-- Every concrete string the regex
`(https?://)?(www\.)?(youtube|youtu|youtube-nocookie)\.(com|be)/` can match. -/
def patAlts : List (List Char) :=
  schemeAlts.flatMap fun sc => wwwAlts.flatMap fun w => hostAlts.flatMap fun h =>
    tldAlts.map fun t => sc ++ w ++ h ++ '.' :: (t ++ ['/'])

/-- Does one of the pattern's alternatives start at this position? -/
def matchCore (l : List Char) : Bool := patAlts.any fun p => p.isPrefixOf l

/-- Embedding of `is_youtube_url` from the source (lines 30-33): `re.search` of the
pattern, i.e. a match starting at any position of the string. -/
def is_youtube_url (url : String) : Bool := url.data.tails.any matchCore

/-- The claim's reading of the pattern: the string contains, anywhere as a
substring, an optional scheme, optional `www.`, a hostname alternative, a
dot, `com` or `be`, and a slash. -/
def ContainsYoutubePattern (s : String) : Prop :=
  ∃ pre sc w h t post, sc ∈ schemeAlts ∧ w ∈ wwwAlts ∧ h ∈ hostAlts ∧ t ∈ tldAlts ∧
    s.data = pre ++ (sc ++ w ++ h ++ '.' :: (t ++ ['/'])) ++ post

/-- Which acquisition branch `main` takes at line 232. -/
inductive Route where
  | download
  | localResolve
  deriving Repr, DecidableEq

/-- Line 232 of `main`: YouTube URLs go to the downloader, everything else
to local-file resolution. -/
def chooseRoute (video_path : String) : Route :=
  if is_youtube_url video_path then .download else .localResolve

/-- The parsed command-line arguments that matter to the modelled phases. -/
structure Args where
  video_path : String
  format : String
  output : Option String
  keep_audio : Bool
  deriving Repr, DecidableEq

/-- Lines 278-281 of `main`: the list of formats to produce. -/
def formatsFor (format : String) : List String :=
  if format = "all" then ["txt", "json", "srt", "vtt"] else [format]

/-- Python truthiness of `args.output` (`None` and the empty string are
falsy). -/
def pyTruthy : Option String → Bool
  | none => false
  | some s => !(s == "")

/-- The default per-video output path `output/<stem>/<stem>_transcription.<ext>`
built at lines 288-289. -/
def defaultOutputPath (video_stem fmt : String) : String :=
  "output/" ++ video_stem ++ "/" ++ video_stem ++ "_transcription." ++ fmt

/-- Lines 285-289 of `main`: the destination chosen for one rendering —
the custom `--output` path when `args.output` is truthy and exactly one
format is being produced, the default per-video path otherwise. -/
def output_path (args : Args) (video_stem fmt : String) : String :=
  if pyTruthy args.output && (formatsFor args.format).length == 1 then
    args.output.getD ""
  else defaultOutputPath video_stem fmt

/-- Model of the `pathlib` path-join operator on string paths: an absolute right operand
discards the left operand. -/
def joinPath (a b : String) : String :=
  if b.data.head? = some '/' then b else a ++ "/" ++ b

/-- Outcome of the input-resolution phase of `main` (lines 231-254). -/
structure ResolvePhase where
  exitCode : Option Nat
  video_path : Option String
  videoDirCreated : Bool
  deriving Repr, DecidableEq

/-- Lines 231-254 of `main` over an abstract filesystem `fs` (which paths
exist) and a download oracle `dl` (`none` = download failed): YouTube URLs
are downloaded; otherwise the path is tried as given, then under `input/`;
if both are missing the process exits with status 1 before the per-video
output directory (line 254) is created. -/
def main_resolve (fs : String → Bool) (dl : Option String) (arg : String) :
    ResolvePhase :=
  if is_youtube_url arg then
    match dl with
    | none => ⟨some 1, none, false⟩
    | some p => ⟨none, some p, true⟩
  else
    if fs arg then ⟨none, some arg, true⟩
    else if fs (joinPath "input" arg) then ⟨none, some (joinPath "input" arg), true⟩
    else ⟨some 1, none, false⟩

/-- Final process state relevant to waveform cleanup: whether the temporary
audio file still exists, and how the run ended (`some 1` = `sys.exit(1)`,
`some 0` = normal completion, `none` = uncaught exception). -/
structure CleanupOutcome where
  audioRemains : Bool
  exitCode : Option Nat
  deriving Repr, DecidableEq

/-- Lines 264-313 of `main`: audio extraction, then the `try`/`finally`
around transcription and saving. `extract_ok` is `extract_audio`'s return
value; `audio_created` says whether the (possibly failed) extraction left a
waveform file on disk; `body_raises` says whether transcription or saving
raised. When extraction fails, `sys.exit(1)` at line 266 runs *before* the
`try`, so the `finally` cleanup never executes; when extraction succeeds
the file exists and the `finally` removes it unless `--keep-audio`. -/
def main_audio_phase (keep_audio extract_ok audio_created body_raises : Bool) :
    CleanupOutcome :=
  if !extract_ok then
    ⟨audio_created, some 1⟩
  else
    ⟨keep_audio, if body_raises then none else some 0⟩

/-- The worked end-to-end example of the specification (§8): two segments
`" hello "` over `[0, 1.2]` and `" world "` over `[1.2, 2.5]`. -/
def sampleResult : PyResult :=
  ⟨"hello world", "en",
    [⟨0, 0, 0, 1.2, " hello ", 0, 0⟩, ⟨1, 0, 1.2, 2.5, " world ", 0, 0⟩], 3⟩

/-- A transcription result with non-ASCII characters, exercising the JSON
serialization. -/
def sampleUnicode : PyResult :=
  ⟨"héllo wörld", "en",
    [⟨0, 0, 0, 1.2, " héllo ", 0, 0⟩, ⟨1, 0, 1.2, 2.5, " wörld ", 0, 0⟩], 3⟩

/-- The exact bytes `json.dump(output_data, f, indent=2, ensure_ascii=False)`
produces for `sampleUnicode`: two-space indentation, unescaped non-ASCII. -/
def jsonExpected : String :=
  "\x7b\n  \"text\": \"héllo wörld\",\n  \"language\": \"en\",\n  \"segments\": [\n    \x7b\n      \"start\": 0.0,\n      \"end\": 1.2,\n      \"text\": \" héllo \"\n    \x7d,\n    \x7b\n      \"start\": 1.2,\n      \"end\": 2.5,\n      \"text\": \" wörld \"\n    \x7d\n  ]\n\x7d"

/-- The rationals that model JSON-emittable Python floats in timestamp
range: non-negative exact decimals of at most 20 fractional digits.
Python's `repr` prints the shortest decimal that round-trips, which for a
double in timestamp range has at most 17 significant digits, so every
timestamp value the program can emit is of this form; a general rational
(e.g. `1/3`) has no finite decimal form and corresponds to no float. -/
def decimalRepresentable (q : ℚ) : Prop := 0 ≤ q ∧ (q * 10 ^ 20).den = 1

instance (q : ℚ) : Decidable (decimalRepresentable q) := by
  unfold decimalRepresentable
  infer_instance

/-- The JSON object built for one segment (the element shape produced by
`segsToJson`, named for reuse in the parser-correctness development). -/
def segJson (s : Segment) : Json :=
  .obj (.cons "start" (.num s.start) (.cons "end" (.num s.end_)
    (.cons "text" (.str s.text) .nil)))

/-- Fuel sufficient for the recursive-descent parser to traverse the emitted
array of segment objects. -/
def segsFuel : List Segment → Nat
  | [] => 0
  | s :: ss => s.text.data.length + 10 + segsFuel ss

end Transcribe

deriving instance DecidableEq for Transcribe.Json
deriving instance DecidableEq for Except

namespace Transcribe

/-! ### Helper lemmas on floors and `pymod` -/

theorem int_floor_eq_nat_floor (q : ℚ) (hq : 0 ≤ q) : ⌊q⌋ = (⌊q⌋₊ : ℤ) := by
  rw [← Int.floor_toNat, Int.toNat_of_nonneg (Int.floor_nonneg.2 hq)]

theorem floor_div_nat_of_nonneg (q : ℚ) (hq : 0 ≤ q) (m : ℕ) :
    ⌊q / (m : ℚ)⌋ = ((⌊q⌋₊ / m : ℕ) : ℤ) := by
  have h1 : 0 ≤ q / (m : ℚ) := div_nonneg hq (Nat.cast_nonneg m)
  rw [int_floor_eq_nat_floor _ h1, Nat.floor_div_nat]

theorem pymod_nat (q : ℚ) (hq : 0 ≤ q) (m : ℕ) :
    pymod q (m : ℚ) = q - ((m * (⌊q⌋₊ / m) : ℕ) : ℚ) := by
  rw [pymod, floor_div_nat_of_nonneg q hq m, Int.cast_natCast, Nat.cast_mul]

theorem pymod_nonneg (q : ℚ) (m : ℕ) (hm : 0 < m) : 0 ≤ pymod q (m : ℚ) := by
  rw [pymod, sub_nonneg]
  have hm' : (0 : ℚ) < m := by exact_mod_cast hm
  calc (m : ℚ) * ⌊q / m⌋ ≤ m * (q / m) :=
        mul_le_mul_of_nonneg_left (Int.floor_le _) (le_of_lt hm')
    _ = q := mul_div_cancel₀ q (ne_of_gt hm')

theorem nat_floor_pymod (q : ℚ) (hq : 0 ≤ q) (m : ℕ) :
    ⌊pymod q (m : ℚ)⌋₊ = ⌊q⌋₊ % m := by
  rw [pymod_nat q hq m, Nat.floor_sub_nat]
  have h := Nat.mod_add_div ⌊q⌋₊ m
  omega

theorem pymod_one (q : ℚ) (hq : 0 ≤ q) : pymod q 1 = q - ((⌊q⌋₊ : ℕ) : ℚ) := by
  have h1 : ((1 : ℕ) : ℚ) = 1 := Nat.cast_one
  rw [← h1, pymod_nat q hq 1]
  norm_num

theorem padZero_length (w n : Nat) : w ≤ (padZero w n).length := by
  rw [padZero, String.length_append]
  show w ≤ (String.mk _).length + _
  simp only [String.length, List.length_replicate]
  omega

/-! ### C2: the subtitle timestamp format -/

/-- C2: for every non-negative seconds value, `format_srt_timestamp`
(`toSubtitleTimestamp`) renders `HH:MM:SS,mmm` with hours
`⌊seconds⌋ / 3600`, minutes `⌊seconds⌋ % 3600 / 60`, seconds field
`⌊seconds⌋ % 60`, each zero-padded to at least two digits (hours beyond 24
still rendered, shown by the 90000 s example), and milliseconds
`⌊(seconds mod 1) * 1000⌋` padded to three digits, with no rounding carry
between fields; in particular the three specified values, and truncation
(not rounding) at 59.9996 s. -/
theorem C2_format_srt_timestamp :
    (∀ q : ℚ, 0 ≤ q →
      format_srt_timestamp q =
        padZero 2 (⌊q⌋₊ / 3600) ++ ":" ++ padZero 2 (⌊q⌋₊ % 3600 / 60) ++ ":"
          ++ padZero 2 (⌊q⌋₊ % 60) ++ "," ++ padZero 3 ⌊(q - ((⌊q⌋₊ : ℕ) : ℚ)) * 1000⌋₊
        ∧ 2 ≤ (padZero 2 (⌊q⌋₊ / 3600)).length) ∧
    format_srt_timestamp 0 = "00:00:00,000" ∧
    format_srt_timestamp 3661.5 = "01:01:01,500" ∧
    format_srt_timestamp (599996 / 10000 : ℚ) = "00:00:59,999" ∧
    format_srt_timestamp 90000 = "25:00:00,000" := by
  refine ⟨fun q hq => ⟨?_, padZero_length 2 _⟩, by decide, by decide, by decide, by decide⟩
  rw [format_srt_timestamp]
  have h3600 : ((3600 : ℕ) : ℚ) = 3600 := by norm_num
  have h60 : ((60 : ℕ) : ℚ) = 60 := by norm_num
  have hours_eq : ⌊q / 3600⌋.toNat = ⌊q⌋₊ / 3600 := by
    rw [← h3600, floor_div_nat_of_nonneg q hq 3600, Int.toNat_natCast]
  have minutes_eq : ⌊pymod q 3600 / 60⌋.toNat = ⌊q⌋₊ % 3600 / 60 := by
    rw [← h3600, ← h60, floor_div_nat_of_nonneg _ (pymod_nonneg q 3600 (by norm_num)) 60,
      Int.toNat_natCast, nat_floor_pymod q hq 3600]
  have secs_eq : ⌊pymod q 60⌋.toNat = ⌊q⌋₊ % 60 := by
    rw [Int.floor_toNat, ← h60, nat_floor_pymod q hq 60]
  have millis_eq : ⌊pymod q 1 * 1000⌋.toNat = ⌊(q - ((⌊q⌋₊ : ℕ) : ℚ)) * 1000⌋₊ := by
    rw [Int.floor_toNat, pymod_one q hq]
  rw [hours_eq, minutes_eq, secs_eq, millis_eq]

/-- Witness for C2 at 3661.5 s. -/
theorem C2_witness :
    (0 : ℚ) ≤ 3661.5 ∧
      format_srt_timestamp 3661.5 =
        padZero 2 (⌊(3661.5 : ℚ)⌋₊ / 3600) ++ ":" ++ padZero 2 (⌊(3661.5 : ℚ)⌋₊ % 3600 / 60) ++ ":"
          ++ padZero 2 (⌊(3661.5 : ℚ)⌋₊ % 60) ++ ","
          ++ padZero 3 ⌊((3661.5 : ℚ) - ((⌊(3661.5 : ℚ)⌋₊ : ℕ) : ℚ)) * 1000⌋₊ :=
  ⟨by decide, (C2_format_srt_timestamp.1 3661.5 (by decide)).1⟩

/-! ### C4: the clock-string formatter -/

theorem timedeltaStr_of_lt (n : Nat) (h : n < 86400) :
    timedeltaStr n =
      natRepr (n / 3600) ++ ":" ++ padZero 2 (n % 3600 / 60) ++ ":" ++ padZero 2 (n % 60) := by
  rw [timedeltaStr]
  have h1 : n / 86400 = 0 := Nat.div_eq_of_lt h
  have h2 : n % 86400 = n := Nat.mod_eq_of_lt h
  simp only [h1, h2, if_pos]

/-- C4 counterexample: at 86400 seconds (24 hours), `format_timestamp`
returns `"1 day, 0:00:00"` — CPython `timedelta.__str__` inserts a days
component — not the `H:MM:SS` clock form (`"24:00:00"`) the claim asserts
for every non-negative input. -/
theorem C4_counterexample :
    format_timestamp 86400 = "1 day, 0:00:00" ∧ "1 day, 0:00:00" ≠ "24:00:00" :=
  ⟨by decide, by decide⟩

/-- C4 amended: for every seconds value in `[0, 86400)`, `format_timestamp`
(`toClockString`) truncates the fractional part and renders `H:MM:SS` with
hours unpadded and minutes/seconds zero-padded to two digits; at 86400
seconds and beyond the rendering instead carries a `"D day[s], "` prefix
with hours reduced modulo 24. The two specified values hold. -/
theorem C4_format_timestamp :
    (∀ q : ℚ, 0 ≤ q → q < 86400 →
      format_timestamp q =
        natRepr (⌊q⌋₊ / 3600) ++ ":" ++ padZero 2 (⌊q⌋₊ % 3600 / 60) ++ ":"
          ++ padZero 2 (⌊q⌋₊ % 60)) ∧
    format_timestamp 0 = "0:00:00" ∧ format_timestamp 125 = "0:02:05" := by
  refine ⟨fun q hq hlt => ?_, by decide, by decide⟩
  rw [format_timestamp, Int.floor_toNat]
  have hn : ⌊q⌋₊ < 86400 := by
    rw [Nat.floor_lt hq]
    exact_mod_cast hlt
  exact timedeltaStr_of_lt _ hn

/-- Witness for the amended C4 at 125 seconds. -/
theorem C4_witness :
    (0 : ℚ) ≤ 125 ∧ (125 : ℚ) < 86400 ∧
      format_timestamp 125 =
        natRepr (⌊(125 : ℚ)⌋₊ / 3600) ++ ":" ++ padZero 2 (⌊(125 : ℚ)⌋₊ % 3600 / 60) ++ ":"
          ++ padZero 2 (⌊(125 : ℚ)⌋₊ % 60) :=
  ⟨by decide, by decide, C4_format_timestamp.1 125 (by decide) (by decide)⟩

/-! ### C3: unrecognized format selectors -/

theorem save_transcription_txt (r : PyResult) :
    save_transcription r "txt" = Except.ok (some r.text) := rfl

theorem save_transcription_json (r : PyResult) :
    save_transcription r "json" = Except.ok (some (dumps (jsonOutput r))) := rfl

theorem save_transcription_srt (r : PyResult) :
    save_transcription r "srt" = Except.ok (some (srtRender r)) := rfl

theorem save_transcription_vtt (r : PyResult) :
    save_transcription r "vtt" = Except.ok (some (vttRender r)) := rfl

/-- C3 counterexample: on the unrecognized format selector `"xml"`,
`save_transcription` completes without raising and writes nothing
(`Except.ok none`): its `if/elif` chain has no `else`, so it silently does
nothing rather than failing fast with an error. -/
theorem C3_counterexample :
    save_transcription sampleResult "xml" = Except.ok none := by decide

/-- C3 amended: for every format selector outside the four recognized
variants, `save_transcription` silently does nothing — writes no file and
raises no error; each recognized variant writes content. (Unrecognized
selectors are unreachable from the CLI, whose `argparse` choices are
txt/json/srt/vtt/all, `all` expanding to recognized variants only.) -/
theorem C3_save_transcription :
    (∀ (r : PyResult) (fmt : String), fmt ∉ ["txt", "json", "srt", "vtt"] →
      save_transcription r fmt = Except.ok none) ∧
    (∀ (r : PyResult) (sel : String), sel ∈ ["txt", "json", "srt", "vtt", "all"] →
      ∀ fmt ∈ formatsFor sel, ∃ c, save_transcription r fmt = Except.ok (some c)) := by
  constructor
  · intro r fmt hmem
    simp only [List.mem_cons, List.not_mem_nil, or_false, not_or] at hmem
    obtain ⟨h1, h2, h3, h4⟩ := hmem
    rw [save_transcription, if_neg h1, if_neg h2, if_neg h3, if_neg h4]
  · intro r sel hsel fmt hfmt
    have hfmt4 : fmt = "txt" ∨ fmt = "json" ∨ fmt = "srt" ∨ fmt = "vtt" := by
      fin_cases hsel <;> rw [formatsFor] at hfmt
      · rw [if_neg (by decide)] at hfmt
        exact Or.inl (List.mem_singleton.1 hfmt)
      · rw [if_neg (by decide)] at hfmt
        exact Or.inr (Or.inl (List.mem_singleton.1 hfmt))
      · rw [if_neg (by decide)] at hfmt
        exact Or.inr (Or.inr (Or.inl (List.mem_singleton.1 hfmt)))
      · rw [if_neg (by decide)] at hfmt
        exact Or.inr (Or.inr (Or.inr (List.mem_singleton.1 hfmt)))
      · rw [if_pos rfl] at hfmt
        simpa using hfmt
    rcases hfmt4 with rfl | rfl | rfl | rfl
    · exact ⟨r.text, save_transcription_txt r⟩
    · exact ⟨dumps (jsonOutput r), save_transcription_json r⟩
    · exact ⟨srtRender r, save_transcription_srt r⟩
    · exact ⟨vttRender r, save_transcription_vtt r⟩

/-- Witness for the amended C3 at the selector `"xml"`. -/
theorem C3_witness :
    ("xml" ∉ ["txt", "json", "srt", "vtt"]) ∧
      save_transcription sampleUnicode "xml" = Except.ok none :=
  ⟨by decide, C3_save_transcription.1 sampleUnicode "xml" (by decide)⟩

/-! ### C5: waveform cleanup on exit paths -/

/-- C5 counterexample: with `--keep-audio` absent, when audio extraction
fails after having created the waveform file, the process exits with
status 1 and the file remains — `sys.exit(1)` at line 266 runs before the
`try`/`finally`, so the cleanup in `finally` never executes on this path. -/
theorem C5_counterexample :
    (main_audio_phase false false true false).audioRemains = true ∧
    (main_audio_phase false false true false).exitCode = some 1 := by decide

/-- C5 amended: once extraction succeeds, the `finally` block removes the
waveform on every exit path — normal completion and exceptions raised by
transcription or formatting — whenever `--keep-audio` is absent; but when
extraction fails, the run exits with status 1 and a waveform file created
by the failed extraction is not removed. -/
theorem C5_main_audio_phase :
    (∀ keep_audio audio_created body_raises : Bool, keep_audio = false →
      (main_audio_phase keep_audio true audio_created body_raises).audioRemains = false) ∧
    (∀ keep_audio audio_created body_raises : Bool,
      (main_audio_phase keep_audio false audio_created body_raises).exitCode = some 1 ∧
      (main_audio_phase keep_audio false audio_created body_raises).audioRemains
        = audio_created) := by
  constructor
  · rintro keep_audio audio_created body_raises rfl
    rfl
  · intro keep_audio audio_created body_raises
    exact ⟨rfl, rfl⟩

/-- Witness for the amended C5: transcription raises, audio still removed. -/
theorem C5_witness :
    (false = false) ∧
      (main_audio_phase false true true true).audioRemains = false :=
  ⟨rfl, C5_main_audio_phase.1 false true true rfl⟩

/-! ### C8: custom output path selection -/

/-- C8 counterexample: with `--output` provided as the empty string and the
single format `txt`, the provided path is ignored: Python's truthiness
test `if args.output and len(formats) == 1` is false for `""`, so the
default per-video path is used although a custom path was provided and
exactly one format is produced. -/
theorem C8_counterexample :
    (Args.mk "v.mp4" "txt" (some "") false).output.isSome = true ∧
    (formatsFor "txt").length = 1 ∧
    output_path (Args.mk "v.mp4" "txt" (some "") false) "v" "txt"
      = defaultOutputPath "v" "txt" ∧
    defaultOutputPath "v" "txt" ≠ "" := by decide

/-- C8 amended: the custom `--output` path is the destination iff it is
provided *non-empty* and exactly one format is produced; when it is
absent, empty, or the selector is `all`, each rendering goes to the
per-video default `output/<stem>/<stem>_transcription.<ext>`; and exactly
one format is produced iff the selector is not `all`. -/
theorem C8_output_path :
    (∀ (args : Args) (stem fmt p : String), args.output = some p → p ≠ "" →
      args.format ≠ "all" → output_path args stem fmt = p) ∧
    (∀ (args : Args) (stem fmt : String),
      (args.output = none ∨ args.output = some "" ∨ args.format = "all") →
      output_path args stem fmt = defaultOutputPath stem fmt) ∧
    (∀ f : String, (formatsFor f).length = 1 ↔ f ≠ "all") := by
  refine ⟨?_, ?_, ?_⟩
  · intro args stem fmt p hp hne hall
    have h1 : pyTruthy (some p) = true := by
      simp [pyTruthy, hne]
    have h2 : ((formatsFor args.format).length == 1) = true := by
      rw [formatsFor, if_neg hall]
      rfl
    rw [output_path, hp, h1, h2, Bool.and_self, if_pos rfl, Option.getD_some]
  · intro args stem fmt hcase
    rcases hcase with h | h | h
    · have hT : pyTruthy none = false := rfl
      rw [output_path, h, hT]
      simp
    · have hT : pyTruthy (some "") = false := by decide
      rw [output_path, h, hT]
      simp
    · have hT : ((formatsFor "all").length == 1) = false := by decide
      rw [output_path, h, hT]
      simp
  · intro f
    by_cases h : f = "all" <;> simp [formatsFor, h]

/-- Witness for the amended C8: a non-empty custom path with one format. -/
theorem C8_witness :
    (Args.mk "v.mp4" "txt" (some "out.txt") false).output = some "out.txt" ∧
      output_path (Args.mk "v.mp4" "txt" (some "out.txt") false) "v" "txt" = "out.txt" :=
  ⟨rfl, C8_output_path.1 (Args.mk "v.mp4" "txt" (some "out.txt") false) "v" "txt" "out.txt"
    rfl (by decide) (by decide)⟩

/-! ### C10: local-path fallback resolution -/

/-- C10: for every non-URL input, `main` uses the path as given when it
exists; otherwise it falls back to `input/<video_path>` (pathlib join) and
uses that when it exists; it exits with status 1 exactly when both are
missing, and on that exit path the per-video output directory has not been
created. -/
theorem C10_main_resolve (fs : String → Bool) (dl : Option String) (arg : String)
    (hurl : is_youtube_url arg = false) :
    (fs arg = true → main_resolve fs dl arg = ⟨none, some arg, true⟩) ∧
    (fs arg = false → fs (joinPath "input" arg) = true →
      main_resolve fs dl arg = ⟨none, some (joinPath "input" arg), true⟩) ∧
    ((main_resolve fs dl arg).exitCode = some 1 ↔
      fs arg = false ∧ fs (joinPath "input" arg) = false) ∧
    ((main_resolve fs dl arg).exitCode = some 1 →
      (main_resolve fs dl arg).videoDirCreated = false) := by
  cases h1 : fs arg
  · cases h2 : fs (joinPath "input" arg) <;>
      simp [main_resolve, hurl, h1, h2]
  · simp [main_resolve, hurl, h1]

/-- Witness for C10: the given path is missing, `input/v.mp4` exists. -/
theorem C10_witness :
    is_youtube_url "v.mp4" = false ∧
      main_resolve (fun p => p == "input/v.mp4") none "v.mp4"
        = ⟨none, some (joinPath "input" "v.mp4"), true⟩ :=
  ⟨by decide,
    (C10_main_resolve (fun p => p == "input/v.mp4") none "v.mp4" (by decide)).2.1
      (by decide) (by decide)⟩


/-! ### C1: SRT rendering structure -/

theorem srtBody_eq (segs : List Segment) (i : Nat) :
    srtBody i segs =
      concatList (((List.range' i segs.length).zip segs).map fun p => srtCue p.1 p.2) := by
  induction segs generalizing i with
  | nil => rfl
  | cons s rest ih =>
    rw [srtBody, ih (i + 1), List.length_cons, List.range'_succ]
    rfl

/-- C1: for every result, the SRT rendering written by `save_transcription`
is exactly the concatenation, over the segments in order, of cues made of
the 1-based index line, the `toSubtitleTimestamp(start) -->
toSubtitleTimestamp(end)` line, the stripped segment text, and a blank
line; the indices paired with the segments are exactly the contiguous
`List.range' 1 N` (independent of the segment timings); and the
specification's worked example renders byte-exactly. -/
theorem C1_srt_render :
    (∀ r : PyResult,
      save_transcription r "srt" =
        Except.ok (some (concatList
          (((List.range' 1 r.segments.length).zip r.segments).map fun p => srtCue p.1 p.2)))) ∧
    (∀ r : PyResult,
      ((List.range' 1 r.segments.length).zip r.segments).map Prod.fst
        = List.range' 1 r.segments.length) ∧
    srtRender sampleResult =
      "1\n00:00:00,000 --> 00:00:01,200\nhello\n\n2\n00:00:01,200 --> 00:00:02,500\nworld\n\n" := by
  refine ⟨fun r => ?_, fun r => ?_, by decide⟩
  · rw [save_transcription_srt, srtRender, srtBody_eq]
  · exact List.map_fst_zip _ _ (by simp)

/-! ### Parser correctness on the serializer's output

These lemmas establish that `json_loads` inverts `dumps` on every document
the program emits (claim C6). -/

theorem isDigit_toNat {c : Char} (h : c.isDigit = true) :
    48 ≤ c.toNat ∧ c.toNat ≤ 57 := by
  simp [Char.isDigit] at h
  exact h

theorem toNat_digitChar {k : Nat} (h : k < 10) :
    (Char.ofNat (48 + k)).toNat = 48 + k := by
  interval_cases k <;> decide

theorem isDigit_digitChar {k : Nat} (h : k < 10) :
    (Char.ofNat (48 + k)).isDigit = true := by
  interval_cases k <;> decide

theorem hexVal_hexDigit {k : Nat} (h : k < 16) : hexVal (hexDigit k) = some k := by
  interval_cases k <;> decide

theorem digit_toNat_ne {c d : Char} (h : c.isDigit = true) (hd : d.toNat < 48 ∨ 57 < d.toNat) :
    ¬(c = d) := by
  intro he
  subst he
  have := isDigit_toNat h
  omega

theorem digit_not_wsp {c : Char} (h : c.isDigit = true) :
    (c = ' ' || c = '\n' || c = '\t' || c = '\r') = false := by
  have h1 : ¬(c = ' ') := digit_toNat_ne h (by decide)
  have h2 : ¬(c = '\n') := digit_toNat_ne h (by decide)
  have h3 : ¬(c = '\t') := digit_toNat_ne h (by decide)
  have h4 : ¬(c = '\r') := digit_toNat_ne h (by decide)
  simp [h1, h2, h3, h4]

theorem skipWs_cons_not_ws {c : Char} (l : List Char)
    (h : (c = ' ' || c = '\n' || c = '\t' || c = '\r') = false) :
    skipWs (c :: l) = c :: l := by
  rw [skipWs, List.dropWhile_cons, if_neg (by simp_all)]

theorem skipWs_append_ws (ws l : List Char)
    (h : ∀ c ∈ ws, (c = ' ' || c = '\n' || c = '\t' || c = '\r') = true) :
    skipWs (ws ++ l) = skipWs l := by
  induction ws with
  | nil => rfl
  | cons c t ih =>
    rw [List.cons_append, skipWs, List.dropWhile_cons,
      if_pos (by simpa using h c (List.mem_cons_self c t))]
    exact ih fun d hd => h d (List.mem_cons_of_mem _ hd)

theorem parseVal_ws_prefix (fuel : Nat) (ws l : List Char)
    (h : ∀ c ∈ ws, (c = ' ' || c = '\n' || c = '\t' || c = '\r') = true) :
    parseVal fuel (ws ++ l) = parseVal fuel l := by
  cases fuel with
  | zero => rfl
  | succ g => rw [parseVal, parseVal, skipWs_append_ws ws l h]

theorem indentStr_ws (lvl : Nat) :
    ∀ c ∈ (indentStr lvl).data, (c = ' ' || c = '\n' || c = '\t' || c = '\r') = true := by
  intro c hc
  have := List.eq_of_mem_replicate hc
  subst this
  decide

theorem natDigitsAux_digit :
    ∀ fuel n : Nat, ∀ c ∈ natDigitsAux fuel n, c.isDigit = true := by
  intro fuel
  induction fuel with
  | zero => intro n c hc; simp [natDigitsAux] at hc
  | succ fuel ih =>
    intro n c hc
    rw [natDigitsAux] at hc
    by_cases h : n < 10
    · rw [if_pos h] at hc
      rw [List.mem_singleton] at hc
      subst hc
      interval_cases n <;> decide
    · rw [if_neg h] at hc
      rcases List.mem_append.1 hc with h1 | h2
      · exact ih _ c h1
      · rw [List.mem_singleton] at h2
        subst h2
        have h10 : n % 10 < 10 := Nat.mod_lt _ (by omega)
        revert h10
        generalize n % 10 = k
        intro h10
        interval_cases k <;> decide

theorem natRepr_digit (n : Nat) : ∀ c ∈ (natRepr n).data, c.isDigit = true :=
  fun c hc => natDigitsAux_digit _ _ c hc

theorem digitsToNat_from (init : Nat) (l : List Char) :
    l.foldl (fun a c => a * 10 + (c.toNat - 48)) init
      = init * 10 ^ l.length + digitsToNat l := by
  induction l generalizing init with
  | nil => simp [digitsToNat]
  | cons c t ih =>
    rw [digitsToNat, List.foldl_cons, List.foldl_cons, ih, ih]
    simp only [List.length_cons, pow_succ]
    ring

theorem digitsToNat_cons (c : Char) (t : List Char) :
    digitsToNat (c :: t) = (c.toNat - 48) * 10 ^ t.length + digitsToNat t := by
  rw [digitsToNat, List.foldl_cons, digitsToNat_from]
  simp

theorem digitsToNat_natDigitsAux :
    ∀ fuel n : Nat, n < 10 ^ fuel → digitsToNat (natDigitsAux fuel n) = n := by
  intro fuel
  induction fuel with
  | zero =>
    intro n hn
    interval_cases n
    rfl
  | succ fuel ih =>
    intro n hn
    rw [natDigitsAux]
    by_cases h : n < 10
    · rw [if_pos h, digitsToNat_cons]
      simp [toNat_digitChar h, digitsToNat]
    · rw [if_neg h, digitsToNat, List.foldl_append, ← digitsToNat]
      rw [show digitsToNat (natDigitsAux fuel (n / 10)) = n / 10 from
        ih _ (by rw [pow_succ] at hn; omega)]
      rw [List.foldl_cons]
      rw [toNat_digitChar (Nat.mod_lt _ (by omega))]
      simp only [List.foldl_nil]
      omega

theorem digitsToNat_natDigits (n : Nat) : digitsToNat (natDigits n) = n :=
  digitsToNat_natDigitsAux (n + 1) n
    (lt_of_lt_of_le (Nat.lt_pow_self (by norm_num) n) (Nat.pow_le_pow_right (by norm_num) (by omega)))

theorem natDigitsAux_ne_nil (fuel n : Nat) : natDigitsAux (fuel + 1) n ≠ [] := by
  rw [natDigitsAux]
  by_cases h : n < 10
  · rw [if_pos h]
    exact List.cons_ne_nil _ _
  · rw [if_neg h]
    simp

theorem natDigits_head_digit (n : Nat) :
    ∃ c t, natDigits n = c :: t ∧ c.isDigit = true := by
  obtain ⟨c, t, h⟩ := List.exists_cons_of_ne_nil (natDigitsAux_ne_nil n n)
  exact ⟨c, t, h, natDigitsAux_digit _ _ c (h ▸ List.mem_cons_self c t)⟩

theorem fracDigits_digit : ∀ (fuel : Nat) (q : ℚ), ∀ c ∈ fracDigits fuel q, c.isDigit = true := by
  intro fuel
  induction fuel with
  | zero => intro q c hc; simp [fracDigits] at hc
  | succ fuel ih =>
    intro q c hc
    rw [fracDigits] at hc
    by_cases h : q = 0
    · rw [if_pos h] at hc
      simp at hc
    · rw [if_neg h] at hc
      rcases List.mem_cons.1 hc with rfl | hc
      · exact isDigit_digitChar (Nat.mod_lt _ (by omega))
      · exact ih _ c hc

theorem den_one_sub_int {x : ℚ} (hx : x.den = 1) (m : ℤ) : (x - (m : ℚ)).den = 1 := by
  obtain ⟨k, hk⟩ : ∃ k : ℤ, x = (k : ℚ) := ⟨x.num, ((Rat.den_eq_one_iff x).1 hx).symm⟩
  rw [hk, ← Int.cast_sub]
  exact Rat.den_intCast _

theorem fracDigits_val :
    ∀ (fuel : Nat) (q : ℚ), 0 ≤ q → q < 1 → (q * 10 ^ fuel).den = 1 →
      (digitsToNat (fracDigits fuel q) : ℚ) = q * 10 ^ (fracDigits fuel q).length := by
  intro fuel
  induction fuel with
  | zero =>
    intro q h0 h1 hden
    rw [pow_zero, mul_one] at hden
    obtain ⟨k, hk⟩ : ∃ k : ℤ, q = (k : ℚ) := ⟨q.num, ((Rat.den_eq_one_iff q).1 hden).symm⟩
    subst hk
    have hk0 : k = 0 := by
      have h0' : (0 : ℤ) ≤ k := by exact_mod_cast h0
      have h1' : k < 1 := by exact_mod_cast h1
      omega
    subst hk0
    simp [fracDigits, digitsToNat]
  | succ fuel ih =>
    intro q h0 h1 hden
    rw [fracDigits]
    by_cases hq : q = 0
    · rw [if_pos hq, hq]
      simp [digitsToNat]
    · rw [if_neg hq]
      have hd0 : (0 : ℤ) ≤ ⌊q * 10⌋ := Int.floor_nonneg.2 (by positivity)
      have hd9 : ⌊q * 10⌋ < 10 := Int.floor_lt.2 (by
        calc q * 10 < 1 * 10 := by linarith
        _ = ((10 : ℤ) : ℚ) := by norm_num)
      have hq0' : 0 ≤ q * 10 - (⌊q * 10⌋ : ℚ) := by
        have := Int.floor_le (q * 10)
        linarith
      have hq1' : q * 10 - (⌊q * 10⌋ : ℚ) < 1 := by
        have := Int.lt_floor_add_one (q * 10)
        linarith
      have hdenf : ((q * 10 - (⌊q * 10⌋ : ℚ)) * 10 ^ fuel).den = 1 := by
        have hx : (q * 10 * 10 ^ fuel).den = 1 := by
          rw [show q * 10 * 10 ^ fuel = q * 10 ^ (fuel + 1) from by ring]
          exact hden
        have := den_one_sub_int hx (⌊q * 10⌋ * 10 ^ fuel)
        rw [show (q * 10 * 10 ^ fuel - ((⌊q * 10⌋ * 10 ^ fuel : ℤ) : ℚ))
            = (q * 10 - (⌊q * 10⌋ : ℚ)) * 10 ^ fuel from by push_cast; ring] at this
        exact this
      have hrec := ih (q * 10 - (⌊q * 10⌋ : ℚ)) hq0' hq1' hdenf
      have hlt : ⌊q * 10⌋.toNat < 10 := by omega
      have hchar : (Char.ofNat (48 + ⌊q * 10⌋.toNat % 10)).toNat - 48 = ⌊q * 10⌋.toNat := by
        rw [toNat_digitChar (Nat.mod_lt _ (by omega))]
        omega
      rw [digitsToNat_cons, hchar, List.length_cons, pow_succ]
      push_cast
      rw [hrec]
      have hcast : ((⌊q * 10⌋.toNat : ℕ) : ℚ) = ((⌊q * 10⌋ : ℤ) : ℚ) := by
        rw [← Int.cast_natCast, Int.toNat_of_nonneg hd0]
      rw [hcast]
      ring

theorem takeWhile_digits (ds rest : List Char) (hds : ∀ c ∈ ds, c.isDigit = true)
    (hr : ∀ c, rest.head? = some c → c.isDigit = false) :
    (ds ++ rest).takeWhile Char.isDigit = ds ∧
    (ds ++ rest).dropWhile Char.isDigit = rest := by
  induction ds with
  | nil =>
    cases rest with
    | nil => exact ⟨rfl, rfl⟩
    | cons c t =>
      have := hr c rfl
      rw [List.nil_append, List.takeWhile_cons, List.dropWhile_cons, if_neg (by simp [this]),
        if_neg (by simp [this])]
      exact ⟨rfl, rfl⟩
  | cons c t ih =>
    have hdigit := hds c (List.mem_cons_self c t)
    obtain ⟨h1, h2⟩ := ih (fun d hd => hds d (List.mem_cons_of_mem _ hd))
    rw [List.cons_append, List.takeWhile_cons, List.dropWhile_cons, if_pos hdigit,
      if_pos hdigit, h1, h2]
    exact ⟨rfl, rfl⟩

theorem numRepr_data (q : ℚ) (h : 0 ≤ q) :
    (numRepr q).data = natDigits ⌊q⌋.toNat ++ '.' ::
      (if q - ((⌊q⌋ : ℤ) : ℚ) = 0 then ['0'] else fracDigits 20 (q - ((⌊q⌋ : ℤ) : ℚ))) := by
  simp only [numRepr, abs_of_nonneg h, if_neg (not_lt.2 h)]
  by_cases hf : q - ((⌊q⌋ : ℤ) : ℚ) = 0
  · rw [if_pos hf, if_pos hf]
    simp only [String.data_append, List.append_assoc, List.nil_append]
    rfl
  · rw [if_neg hf, if_neg hf]
    simp only [String.data_append, List.append_assoc, List.nil_append]
    rfl

theorem parseNum_shape (n : Nat) (fr : List Char) (hfr : ∀ c ∈ fr, c.isDigit = true)
    (rest : List Char) (hrest : ∀ c, rest.head? = some c → c.isDigit = false) :
    parseNum (natDigits n ++ '.' :: (fr ++ rest))
      = some ((n : ℚ) + (digitsToNat fr : ℚ) / (10 : ℚ) ^ fr.length, rest) := by
  obtain ⟨c0, t0, hnd, hc0⟩ := natDigits_head_digit n
  have hdigits : ∀ c ∈ natDigits n, c.isDigit = true := natRepr_digit n
  have hdot : ∀ c, ('.' :: (fr ++ rest)).head? = some c → c.isDigit = false := by
    intro c hc
    injection hc with hc
    subst hc
    decide
  have htake := takeWhile_digits (natDigits n) ('.' :: (fr ++ rest)) hdigits hdot
  have htakef := takeWhile_digits fr rest hfr hrest
  have hvaln := digitsToNat_natDigits n
  rw [hnd] at htake ⊢
  simp only [List.cons_append] at htake ⊢
  rw [parseNum]
  simp only []
  rw [if_neg (digit_toNat_ne hc0 (by decide))]
  rw [htake.1, htake.2]
  rw [if_neg (by simp)]
  rw [show digitsToNat (c0 :: t0) = n from hnd ▸ hvaln]
  simp [htakef.1, htakef.2]

theorem parseNum_numRepr (q : ℚ) (hq : decimalRepresentable q) (rest : List Char)
    (hrest : ∀ c, rest.head? = some c → c.isDigit = false) :
    parseNum ((numRepr q).data ++ rest) = some (q, rest) := by
  obtain ⟨h0, hden⟩ := hq
  have hfl0 : (0 : ℤ) ≤ ⌊q⌋ := Int.floor_nonneg.2 h0
  have hcast : ((⌊q⌋.toNat : ℕ) : ℚ) = ((⌊q⌋ : ℤ) : ℚ) := by
    rw [← Int.cast_natCast, Int.toNat_of_nonneg hfl0]
  rw [numRepr_data q h0, List.append_assoc, List.cons_append]
  by_cases hf : q - ((⌊q⌋ : ℤ) : ℚ) = 0
  · rw [if_pos hf]
    rw [parseNum_shape _ _ (by decide) rest hrest]
    have hq_eq : q = ((⌊q⌋.toNat : ℕ) : ℚ) := by
      rw [hcast]
      linarith [hf]
    rw [show digitsToNat ['0'] = 0 from rfl]
    rw [← hq_eq]
    norm_num
  · rw [if_neg hf]
    have hfp0 : 0 ≤ q - ((⌊q⌋ : ℤ) : ℚ) := by
      have := Int.floor_le q
      linarith
    have hfp1 : q - ((⌊q⌋ : ℤ) : ℚ) < 1 := by
      have := Int.lt_floor_add_one q
      linarith
    have hfden : ((q - ((⌊q⌋ : ℤ) : ℚ)) * 10 ^ 20).den = 1 := by
      have := den_one_sub_int hden (⌊q⌋ * 10 ^ 20)
      rw [show (q * 10 ^ 20 - ((⌊q⌋ * 10 ^ 20 : ℤ) : ℚ))
          = (q - ((⌊q⌋ : ℤ) : ℚ)) * 10 ^ 20 from by push_cast; ring] at this
      exact this
    have hval := fracDigits_val 20 _ hfp0 hfp1 hfden
    rw [parseNum_shape _ _ (fracDigits_digit 20 _) rest hrest]
    rw [hval, hcast]
    have hpow : ((10 : ℚ) ^ (fracDigits 20 (q - ((⌊q⌋ : ℤ) : ℚ))).length) ≠ 0 := by
      positivity
    rw [mul_div_assoc, div_self hpow, mul_one]
    rw [show ((⌊q⌋ : ℤ) : ℚ) + (q - ((⌊q⌋ : ℤ) : ℚ)) = q from by ring]

theorem skipWs_colon (l : List Char) : skipWs (':' :: l) = ':' :: l :=
  skipWs_cons_not_ws _ (by decide)

theorem skipWs_comma (l : List Char) : skipWs (',' :: l) = ',' :: l :=
  skipWs_cons_not_ws _ (by decide)

theorem skipWs_quote (l : List Char) : skipWs ('"' :: l) = '"' :: l :=
  skipWs_cons_not_ws _ (by decide)

theorem skipWs_rbrack (l : List Char) : skipWs (']' :: l) = ']' :: l :=
  skipWs_cons_not_ws _ (by decide)

theorem skipWs_lbrack (l : List Char) : skipWs ('[' :: l) = '[' :: l :=
  skipWs_cons_not_ws _ (by decide)

theorem skipWs_lbrace (l : List Char) :
    skipWs (Char.ofNat 123 :: l) = Char.ofNat 123 :: l :=
  skipWs_cons_not_ws _ (by decide)

theorem skipWs_rbrace (l : List Char) :
    skipWs (Char.ofNat 125 :: l) = Char.ofNat 125 :: l :=
  skipWs_cons_not_ws _ (by decide)

theorem skipWs_digit {c : Char} (h : c.isDigit = true) (l : List Char) :
    skipWs (c :: l) = c :: l :=
  skipWs_cons_not_ws _ (digit_not_wsp h)

theorem nl_indent_ws (lvl : Nat) :
    ∀ c ∈ '\n' :: (indentStr lvl).data, (c = ' ' || c = '\n' || c = '\t' || c = '\r') = true := by
  intro c hc
  rcases List.mem_cons.1 hc with rfl | h
  · decide
  · exact indentStr_ws lvl c h

theorem skipWs_nl_indent (lvl : Nat) (l : List Char) :
    skipWs ('\n' :: ((indentStr lvl).data ++ l)) = skipWs l := by
  rw [show ('\n' :: ((indentStr lvl).data ++ l)) = ('\n' :: (indentStr lvl).data) ++ l from rfl,
    skipWs_append_ws _ l (nl_indent_ws lvl)]

theorem parseVal_nl_indent (fuel lvl : Nat) (l : List Char) :
    parseVal fuel ('\n' :: ((indentStr lvl).data ++ l)) = parseVal fuel l := by
  rw [show ('\n' :: ((indentStr lvl).data ++ l)) = ('\n' :: (indentStr lvl).data) ++ l from rfl,
    parseVal_ws_prefix fuel _ l (nl_indent_ws lvl)]

theorem parseVal_space (fuel : Nat) (l : List Char) :
    parseVal fuel (' ' :: l) = parseVal fuel l := by
  rw [show (' ' :: l) = [' '] ++ l from rfl, parseVal_ws_prefix fuel [' '] l (by decide)]

theorem parseEntries_ws_prefix (fuel : Nat) (ws l : List Char)
    (h : ∀ c ∈ ws, (c = ' ' || c = '\n' || c = '\t' || c = '\r') = true) :
    parseEntries fuel (ws ++ l) = parseEntries fuel l := by
  cases fuel with
  | zero => rfl
  | succ g => rw [parseEntries, parseEntries, skipWs_append_ws ws l h]

theorem parseEntries_nl (fuel : Nat) (l : List Char) :
    parseEntries fuel ('\n' :: l) = parseEntries fuel l := by
  rw [show ('\n' :: l) = ['\n'] ++ l from rfl, parseEntries_ws_prefix fuel _ l (by decide)]

theorem dumpStr_data_append (s : String) (z : List Char) :
    (dumpStr s).data ++ z
      = '"' :: ((concatList (s.data.map escapeChar)).data ++ '"' :: z) := by
  rw [dumpStr]
  simp only [String.data_append, List.append_assoc]
  rfl

theorem skipWs_dumpStr (s : String) (z : List Char) :
    skipWs ((dumpStr s).data ++ z)
      = '"' :: ((concatList (s.data.map escapeChar)).data ++ '"' :: z) := by
  rw [dumpStr_data_append]
  exact skipWs_cons_not_ws _ (by decide)

theorem parseStrBody_unicode (hi lo : Nat) (hhi : hi < 2) (hlo : lo < 16)
    (fuel : Nat) (tail : List Char) :
    parseStrBody (fuel + 1)
        ('\\' :: 'u' :: '0' :: '0' :: hexDigit hi :: hexDigit lo :: tail)
      = (parseStrBody fuel tail).map fun p => (Char.ofNat (hi * 16 + lo) :: p.1, p.2) := by
  interval_cases hi <;> interval_cases lo <;> rfl

theorem parseStrBody_escapeChar (c : Char) (fuel : Nat) (tail : List Char) :
    parseStrBody (fuel + 1) ((escapeChar c).data ++ tail)
      = (parseStrBody fuel tail).map fun p => (c :: p.1, p.2) := by
  by_cases h1 : c = '"'
  · subst h1; rfl
  by_cases h2 : c = '\\'
  · subst h2; rfl
  by_cases h3 : c = '\n'
  · subst h3; rfl
  by_cases h4 : c = '\t'
  · subst h4; rfl
  by_cases h5 : c = '\r'
  · subst h5; rfl
  by_cases h6 : c.toNat = 8
  · have hc : c = Char.ofNat 8 := by rw [← Char.ofNat_toNat c, h6]
    subst hc; rfl
  by_cases h7 : c.toNat = 12
  · have hc : c = Char.ofNat 12 := by rw [← Char.ofNat_toNat c, h7]
    subst hc; rfl
  by_cases h8 : c.toNat < 0x20
  · have hdata : (escapeChar c).data
        = '\\' :: 'u' :: '0' :: '0' :: hexDigit (c.toNat / 16) :: [hexDigit (c.toNat % 16)] := by
      rw [escapeChar, if_neg h1, if_neg h2, if_neg h3, if_neg h4, if_neg h5,
        if_neg h6, if_neg h7, if_pos h8]
    rw [hdata,
      show ('\\' :: 'u' :: '0' :: '0' :: hexDigit (c.toNat / 16) :: [hexDigit (c.toNat % 16)]) ++ tail
        = '\\' :: 'u' :: '0' :: '0' :: hexDigit (c.toNat / 16) :: hexDigit (c.toNat % 16) :: tail
        from rfl,
      parseStrBody_unicode (c.toNat / 16) (c.toNat % 16) (by omega) (Nat.mod_lt _ (by norm_num))]
    rw [show c.toNat / 16 * 16 + c.toNat % 16 = c.toNat from by omega, Char.ofNat_toNat]
  · have hdata : (escapeChar c).data = [c] := by
      rw [escapeChar, if_neg h1, if_neg h2, if_neg h3, if_neg h4, if_neg h5,
        if_neg h6, if_neg h7, if_neg h8]
      rfl
    rw [hdata, List.singleton_append, parseStrBody.eq_def]
    simp only []
    rw [if_neg h1, if_neg h2]

theorem parseStrBody_dump (s : List Char) :
    ∀ (fuel : Nat) (rest : List Char), s.length + 1 ≤ fuel →
      parseStrBody fuel ((concatList (s.map escapeChar)).data ++ '"' :: rest)
        = some (s, rest) := by
  induction s with
  | nil =>
    intro fuel rest h
    obtain ⟨g, rfl⟩ : ∃ g, fuel = g + 1 := ⟨fuel - 1, by omega⟩
    rfl
  | cons c t ih =>
    intro fuel rest h
    obtain ⟨g, rfl⟩ : ∃ g, fuel = g + 1 := ⟨fuel - 1, by omega⟩
    have hdata : (concatList ((c :: t).map escapeChar)).data
        = (escapeChar c).data ++ (concatList (t.map escapeChar)).data := by
      rw [List.map_cons]
      rw [show concatList (escapeChar c :: t.map escapeChar)
          = escapeChar c ++ concatList (t.map escapeChar) from rfl]
      exact String.data_append _ _
    rw [hdata, List.append_assoc, parseStrBody_escapeChar c g]
    rw [ih g rest (by simp only [List.length_cons] at h; omega)]
    rfl

theorem parseVal_dumpStr (s : String) (fuel : Nat) (rest : List Char)
    (h : s.data.length + 1 ≤ fuel) :
    parseVal fuel ((dumpStr s).data ++ rest) = some (.str s, rest) := by
  obtain ⟨g, rfl⟩ : ∃ g, fuel = g + 1 := ⟨fuel - 1, by omega⟩
  rw [parseVal, skipWs_dumpStr]
  simp only []
  rw [if_true, parseStrBody_dump s.data (g + 1) rest h]
  rfl

theorem parseVal_numRepr (q : ℚ) (hq : decimalRepresentable q) (fuel : Nat) (hf : 1 ≤ fuel)
    (rest : List Char) (hrest : ∀ c, rest.head? = some c → c.isDigit = false) :
    parseVal fuel ((numRepr q).data ++ rest) = some (.num q, rest) := by
  obtain ⟨g, rfl⟩ : ∃ g, fuel = g + 1 := ⟨fuel - 1, by omega⟩
  obtain ⟨c0, t0, hnd, hc0⟩ := natDigits_head_digit ⌊q⌋.toNat
  have hdata : (numRepr q).data ++ rest = c0 :: ((t0 ++ '.' ::
      (if q - ((⌊q⌋ : ℤ) : ℚ) = 0 then ['0'] else fracDigits 20 (q - ((⌊q⌋ : ℤ) : ℚ)))) ++ rest) := by
    rw [numRepr_data q hq.1, hnd]
    rfl
  rw [hdata, parseVal, skipWs_digit hc0]
  simp only []
  rw [if_neg (@digit_toNat_ne c0 '"' hc0 (by decide)),
    if_neg (@digit_toNat_ne c0 '[' hc0 (by decide)),
    if_neg (@digit_toNat_ne c0 (Char.ofNat 123) hc0 (by decide))]
  rw [← hdata, parseNum_numRepr q hq rest hrest]
  rfl

theorem head_comma_not_digit (l : List Char) :
    ∀ c : Char, (',' :: l).head? = some c → c.isDigit = false := by
  intro c hc
  rw [List.head?_cons] at hc
  injection hc with hc
  subst hc
  decide

theorem parseEntries_cons (g lvl : Nat) (key : String) (v : Json) (r2 r3 r4 : List Char)
    (hklen : key.data.length + 1 ≤ g + 1)
    (hval : parseVal g (' ' :: r2) = some (v, r3))
    (hr3 : skipWs r3 = ',' :: r4) :
    parseEntries (g + 1) ((indentStr lvl).data ++ ((dumpStr key).data ++ ':' :: ' ' :: r2))
      = (parseEntries g r4).map fun p => (.cons key v p.1, p.2) := by
  rw [parseEntries, skipWs_append_ws _ _ (indentStr_ws lvl), skipWs_dumpStr]
  simp only []
  rw [if_true, parseStrBody_dump key.data (g + 1) (':' :: ' ' :: r2) hklen]
  simp only []
  rw [skipWs_colon]
  simp [hval, hr3]

theorem parseEntries_end (g lvl : Nat) (key : String) (v : Json) (r2 r3 r4 : List Char)
    (hklen : key.data.length + 1 ≤ g + 1)
    (hval : parseVal g (' ' :: r2) = some (v, r3))
    (hr3 : skipWs r3 = Char.ofNat 125 :: r4) :
    parseEntries (g + 1) ((indentStr lvl).data ++ ((dumpStr key).data ++ ':' :: ' ' :: r2))
      = some (.cons key v .nil, r4) := by
  rw [parseEntries, skipWs_append_ws _ _ (indentStr_ws lvl), skipWs_dumpStr]
  simp only []
  rw [if_true, parseStrBody_dump key.data (g + 1) (':' :: ' ' :: r2) hklen]
  simp only []
  rw [skipWs_colon]
  simp [hval, hr3, (show ¬((Char.ofNat 125 : Char) = ',') from by decide)]

theorem parseItems_more (h : Nat) (j : Json) (l r3 r4 : List Char)
    (hval : parseVal h l = some (j, r3))
    (hr3 : skipWs r3 = ',' :: r4) :
    parseItems (h + 1) l = (parseItems h r4).map fun p => (.cons j p.1, p.2) := by
  rw [parseItems]
  rw [hval]
  simp only []
  rw [hr3]
  simp

theorem parseItems_end (h : Nat) (j : Json) (l r3 r4 : List Char)
    (hval : parseVal h l = some (j, r3))
    (hr3 : skipWs r3 = ']' :: r4) :
    parseItems (h + 1) l = some (.cons j .nil, r4) := by
  rw [parseItems]
  rw [hval]
  simp only []
  rw [hr3]
  simp [(show ¬((']' : Char) = ',') from by decide)]


theorem segJson_data (lvl : Nat) (s : Segment) (after : List Char) :
    (dumpVal lvl (segJson s)).data ++ after
      = Char.ofNat 123 :: '\n' ::
        ((indentStr (lvl + 1)).data ++ ((dumpStr "start").data ++ ':' :: ' ' ::
          ((numRepr s.start).data ++ ',' :: '\n' ::
            ((indentStr (lvl + 1)).data ++ ((dumpStr "end").data ++ ':' :: ' ' ::
              ((numRepr s.end_).data ++ ',' :: '\n' ::
                ((indentStr (lvl + 1)).data ++ ((dumpStr "text").data ++ ':' :: ' ' ::
                  ((dumpStr s.text).data ++ '\n' ::
                    ((indentStr lvl).data ++ Char.ofNat 125 :: after)))))))))) := by
  simp only [segJson, dumpVal, dumpEntries, String.data_append, List.append_assoc]
  rfl

theorem parseVal_segJson (lvl : Nat) (s : Segment)
    (ha : decimalRepresentable s.start) (hb : decimalRepresentable s.end_)
    (fuel : Nat) (hf : s.text.data.length + 8 ≤ fuel) (after : List Char) :
    parseVal fuel ((dumpVal lvl (segJson s)).data ++ after) = some (segJson s, after) := by
  obtain ⟨f2, rfl⟩ : ∃ x, fuel = x + 1 + 1 + 1 + 1 := ⟨fuel - 4, by omega⟩
  rw [segJson_data]
  set Z5 : List Char := (indentStr lvl).data ++ Char.ofNat 125 :: after with hZ5
  set Z4 : List Char := (dumpStr s.text).data ++ '\n' :: Z5 with hZ4
  set Z3 : List Char := (indentStr (lvl + 1)).data
    ++ ((dumpStr "text").data ++ ':' :: ' ' :: Z4) with hZ3
  set Z2 : List Char := (numRepr s.end_).data ++ ',' :: '\n' :: Z3 with hZ2
  set Z1 : List Char := (indentStr (lvl + 1)).data
    ++ ((dumpStr "end").data ++ ':' :: ' ' :: Z2) with hZ1
  set Z0 : List Char := (numRepr s.start).data ++ ',' :: '\n' :: Z1 with hZ0
  have hval0 : parseVal (f2 + 1 + 1) (' ' :: Z0) = some (.num s.start, ',' :: '\n' :: Z1) := by
    rw [parseVal_space, hZ0]
    exact parseVal_numRepr s.start ha (f2 + 1 + 1) (by omega) (',' :: '\n' :: Z1)
      (head_comma_not_digit ('\n' :: Z1))
  have hval1 : parseVal (f2 + 1) (' ' :: Z2) = some (.num s.end_, ',' :: '\n' :: Z3) := by
    rw [parseVal_space, hZ2]
    exact parseVal_numRepr s.end_ hb (f2 + 1) (by omega) (',' :: '\n' :: Z3)
      (head_comma_not_digit ('\n' :: Z3))
  have hval2 : parseVal f2 (' ' :: Z4) = some (.str s.text, '\n' :: Z5) := by
    rw [parseVal_space, hZ4]
    exact parseVal_dumpStr s.text f2 ('\n' :: Z5) (by omega)
  have hskend : skipWs ('\n' :: Z5) = Char.ofNat 125 :: after := by
    rw [hZ5, skipWs_nl_indent, skipWs_rbrace]
  rw [parseVal, skipWs_lbrace]
  simp only []
  rw [if_neg (by decide), if_neg (by decide), if_true]
  rw [skipWs_nl_indent, skipWs_dumpStr]
  simp only []
  rw [if_neg (by decide)]
  rw [parseEntries_nl, parseEntries_cons (f2 + 1 + 1) (lvl + 1) "start" (.num s.start) Z0
    (',' :: '\n' :: Z1) ('\n' :: Z1)
    (by have h5 : ("start" : String).data.length = 5 := rfl; omega) hval0 (skipWs_comma _)]
  rw [parseEntries_nl, hZ1, parseEntries_cons (f2 + 1) (lvl + 1) "end" (.num s.end_) Z2
    (',' :: '\n' :: Z3) ('\n' :: Z3)
    (by have h3 : ("end" : String).data.length = 3 := rfl; omega) hval1 (skipWs_comma _)]
  rw [parseEntries_nl, hZ3, parseEntries_end f2 (lvl + 1) "text" (.str s.text) Z4
    ('\n' :: Z5) after
    (by have h4 : ("text" : String).data.length = 4 := rfl; omega) hval2 hskend]
  rfl


theorem arrDump_data (lvl : Nat) (s : Segment) (ss : List Segment) (after : List Char) :
    (dumpVal lvl (.arr (segsToJson (s :: ss)))).data ++ after
      = '[' :: '\n' :: ((dumpItems (lvl + 1) (segsToJson (s :: ss))).data
        ++ '\n' :: ((indentStr lvl).data ++ ']' :: after)) := by
  simp only [segsToJson, dumpVal, String.data_append, List.append_assoc]
  rfl

theorem dumpItems_segs_head (lvl : Nat) (s : Segment) (ss : List Segment) (z : List Char) :
    ∃ w, skipWs ('\n' :: ((dumpItems (lvl + 1) (segsToJson (s :: ss))).data ++ z))
      = Char.ofNat 123 :: w := by
  have h1 : ∃ u, (dumpItems (lvl + 1) (segsToJson (s :: ss))).data ++ z
      = (indentStr (lvl + 1)).data ++ ((dumpVal (lvl + 1) (segJson s)).data ++ u) := by
    cases ss with
    | nil =>
      refine ⟨z, ?_⟩
      simp only [segsToJson, segJson, dumpItems, String.data_append, List.append_assoc]
    | cons s2 ss2 =>
      refine ⟨',' :: '\n' :: ((dumpItems (lvl + 1) (segsToJson (s2 :: ss2))).data ++ z), ?_⟩
      simp only [segsToJson, segJson, dumpItems, String.data_append, List.append_assoc]
      rfl
  obtain ⟨u, hu⟩ := h1
  rw [hu, skipWs_nl_indent, segJson_data]
  exact ⟨_, skipWs_lbrace _⟩

theorem parseItems_segsToJson (lvl : Nat) (ss : List Segment) :
    ∀ (s : Segment) (fuel : Nat) (after : List Char),
      decimalRepresentable s.start → decimalRepresentable s.end_ →
      (∀ u ∈ ss, decimalRepresentable u.start ∧ decimalRepresentable u.end_) →
      segsFuel (s :: ss) ≤ fuel →
      parseItems fuel ('\n' :: ((dumpItems (lvl + 1) (segsToJson (s :: ss))).data
          ++ '\n' :: ((indentStr lvl).data ++ ']' :: after)))
        = some (segsToJson (s :: ss), after) := by
  induction ss with
  | nil =>
    intro s fuel after ha hb _ hfuel
    simp only [segsFuel] at hfuel
    obtain ⟨h, rfl⟩ : ∃ x, fuel = x + 1 := ⟨fuel - 1, by omega⟩
    have hdata : '\n' :: ((dumpItems (lvl + 1) (segsToJson [s])).data
        ++ '\n' :: ((indentStr lvl).data ++ ']' :: after))
        = '\n' :: ((indentStr (lvl + 1)).data ++ ((dumpVal (lvl + 1) (segJson s)).data
          ++ '\n' :: ((indentStr lvl).data ++ ']' :: after))) := by
      simp only [segsToJson, segJson, dumpItems, String.data_append, List.append_assoc]
    rw [hdata]
    have hval : parseVal h ('\n' :: ((indentStr (lvl + 1)).data
        ++ ((dumpVal (lvl + 1) (segJson s)).data
          ++ '\n' :: ((indentStr lvl).data ++ ']' :: after))))
        = some (segJson s, '\n' :: ((indentStr lvl).data ++ ']' :: after)) := by
      rw [parseVal_nl_indent]
      exact parseVal_segJson (lvl + 1) s ha hb h (by omega) _
    rw [parseItems_end h (segJson s) _ _ after hval
      (by rw [skipWs_nl_indent, skipWs_rbrack])]
    simp [segsToJson, segJson]
  | cons s2 ss ih =>
    intro s fuel after ha hb hss hfuel
    simp only [segsFuel] at hfuel
    obtain ⟨h, rfl⟩ : ∃ x, fuel = x + 1 := ⟨fuel - 1, by omega⟩
    have hdata : '\n' :: ((dumpItems (lvl + 1) (segsToJson (s :: s2 :: ss))).data
        ++ '\n' :: ((indentStr lvl).data ++ ']' :: after))
        = '\n' :: ((indentStr (lvl + 1)).data ++ ((dumpVal (lvl + 1) (segJson s)).data
          ++ ',' :: '\n' :: ((dumpItems (lvl + 1) (segsToJson (s2 :: ss))).data
            ++ '\n' :: ((indentStr lvl).data ++ ']' :: after)))) := by
      simp only [segsToJson, segJson, dumpItems, String.data_append, List.append_assoc]
      rfl
    rw [hdata]
    have hval : parseVal h ('\n' :: ((indentStr (lvl + 1)).data
        ++ ((dumpVal (lvl + 1) (segJson s)).data
          ++ ',' :: '\n' :: ((dumpItems (lvl + 1) (segsToJson (s2 :: ss))).data
            ++ '\n' :: ((indentStr lvl).data ++ ']' :: after)))))
        = some (segJson s, ',' :: '\n' :: ((dumpItems (lvl + 1) (segsToJson (s2 :: ss))).data
            ++ '\n' :: ((indentStr lvl).data ++ ']' :: after))) := by
      rw [parseVal_nl_indent]
      exact parseVal_segJson (lvl + 1) s ha hb h (by omega) _
    rw [parseItems_more h (segJson s) _ _
      ('\n' :: ((dumpItems (lvl + 1) (segsToJson (s2 :: ss))).data
        ++ '\n' :: ((indentStr lvl).data ++ ']' :: after))) hval (skipWs_comma _)]
    rw [ih s2 h after (hss s2 (List.mem_cons_self s2 ss)).1 (hss s2 (List.mem_cons_self s2 ss)).2
      (fun u hu => hss u (List.mem_cons_of_mem s2 hu)) (by simp only [segsFuel]; omega)]
    simp [segsToJson, segJson]

theorem parseVal_segArr (lvl : Nat) (segs : List Segment) (fuel : Nat) (after : List Char)
    (hsegs : ∀ u ∈ segs, decimalRepresentable u.start ∧ decimalRepresentable u.end_)
    (hfuel : segsFuel segs + 2 ≤ fuel) :
    parseVal fuel ((dumpVal lvl (.arr (segsToJson segs))).data ++ after)
      = some (.arr (segsToJson segs), after) := by
  obtain ⟨g, rfl⟩ : ∃ x, fuel = x + 1 := ⟨fuel - 1, by omega⟩
  cases segs with
  | nil => rfl
  | cons s ss =>
    rw [arrDump_data, parseVal, skipWs_lbrack]
    simp only []
    rw [if_neg (by decide), if_true]
    obtain ⟨w, hw⟩ := dumpItems_segs_head lvl s ss
      ('\n' :: ((indentStr lvl).data ++ ']' :: after))
    rw [hw]
    show Option.map (fun p => (Json.arr p.1, p.2))
        (parseItems g ('\n' :: ((dumpItems (lvl + 1) (segsToJson (s :: ss))).data
          ++ '\n' :: ((indentStr lvl).data ++ ']' :: after))))
      = some (.arr (segsToJson (s :: ss)), after)
    rw [parseItems_segsToJson lvl ss s g after (hsegs s (List.mem_cons_self s ss)).1
      (hsegs s (List.mem_cons_self s ss)).2
      (fun u hu => hsegs u (List.mem_cons_of_mem s hu)) (by omega)]
    rfl


theorem jsonOutput_data (r : PyResult) (after : List Char) :
    (dumps (jsonOutput r)).data ++ after
      = Char.ofNat 123 :: '\n' ::
        ((indentStr 1).data ++ ((dumpStr "text").data ++ ':' :: ' ' ::
          ((dumpStr r.text).data ++ ',' :: '\n' ::
            ((indentStr 1).data ++ ((dumpStr "language").data ++ ':' :: ' ' ::
              ((dumpStr r.language).data ++ ',' :: '\n' ::
                ((indentStr 1).data ++ ((dumpStr "segments").data ++ ':' :: ' ' ::
                  ((dumpVal 1 (.arr (segsToJson r.segments))).data ++ '\n' ::
                    ((indentStr 0).data ++ Char.ofNat 125 :: after)))))))))) := by
  simp only [dumps, jsonOutput, dumpEntries, String.data_append, List.append_assoc,
    (show ∀ lvl k v kvs, dumpVal lvl (Json.obj (JsonObj.cons k v kvs))
        = "\x7b\n" ++ dumpEntries (lvl + 1) (JsonObj.cons k v kvs) ++ "\n"
          ++ indentStr lvl ++ "\x7d" from fun _ _ _ _ => rfl),
    (show ∀ lvl t, dumpVal lvl (Json.str t) = dumpStr t from fun _ _ => rfl)]
  rfl

theorem parseVal_jsonOutput (r : PyResult)
    (hsegs : ∀ u ∈ r.segments, decimalRepresentable u.start ∧ decimalRepresentable u.end_)
    (fuel : Nat) (after : List Char)
    (hfuel : r.text.data.length + r.language.data.length + segsFuel r.segments + 16 ≤ fuel) :
    parseVal fuel ((dumps (jsonOutput r)).data ++ after) = some (jsonOutput r, after) := by
  obtain ⟨d, rfl⟩ : ∃ x, fuel = x + 1 + 1 + 1 + 1 := ⟨fuel - 4, by omega⟩
  rw [jsonOutput_data]
  set Z5 : List Char := (indentStr 0).data ++ Char.ofNat 125 :: after with hZ5
  set Z4 : List Char := (dumpVal 1 (.arr (segsToJson r.segments))).data ++ '\n' :: Z5 with hZ4
  set Z3 : List Char := (indentStr 1).data
    ++ ((dumpStr "segments").data ++ ':' :: ' ' :: Z4) with hZ3
  set Z2 : List Char := (dumpStr r.language).data ++ ',' :: '\n' :: Z3 with hZ2
  set Z1 : List Char := (indentStr 1).data
    ++ ((dumpStr "language").data ++ ':' :: ' ' :: Z2) with hZ1
  set Z0 : List Char := (dumpStr r.text).data ++ ',' :: '\n' :: Z1 with hZ0
  have hval0 : parseVal (d + 1 + 1) (' ' :: Z0) = some (.str r.text, ',' :: '\n' :: Z1) := by
    rw [parseVal_space, hZ0]
    exact parseVal_dumpStr r.text (d + 1 + 1) (',' :: '\n' :: Z1) (by omega)
  have hval1 : parseVal (d + 1) (' ' :: Z2) = some (.str r.language, ',' :: '\n' :: Z3) := by
    rw [parseVal_space, hZ2]
    exact parseVal_dumpStr r.language (d + 1) (',' :: '\n' :: Z3) (by omega)
  have hval2 : parseVal d (' ' :: Z4) = some (.arr (segsToJson r.segments), '\n' :: Z5) := by
    rw [parseVal_space, hZ4]
    exact parseVal_segArr 1 r.segments d ('\n' :: Z5) hsegs (by omega)
  have hskend : skipWs ('\n' :: Z5) = Char.ofNat 125 :: after := by
    rw [hZ5, skipWs_nl_indent, skipWs_rbrace]
  rw [parseVal, skipWs_lbrace]
  simp only []
  rw [if_neg (by decide), if_neg (by decide), if_true]
  rw [skipWs_nl_indent, skipWs_dumpStr]
  simp only []
  rw [if_neg (by decide)]
  rw [parseEntries_nl, parseEntries_cons (d + 1 + 1) 1 "text" (.str r.text) Z0
    (',' :: '\n' :: Z1) ('\n' :: Z1)
    (by have h4 : ("text" : String).data.length = 4 := rfl; omega) hval0 (skipWs_comma _)]
  rw [parseEntries_nl, hZ1, parseEntries_cons (d + 1) 1 "language" (.str r.language) Z2
    (',' :: '\n' :: Z3) ('\n' :: Z3)
    (by have h8 : ("language" : String).data.length = 8 := rfl; omega) hval1 (skipWs_comma _)]
  rw [parseEntries_nl, hZ3, parseEntries_end d 1 "segments" (.arr (segsToJson r.segments)) Z4
    ('\n' :: Z5) after
    (by have h8 : ("segments" : String).data.length = 8 := rfl; omega) hval2 hskend]
  rfl


theorem escapeChar_length (c : Char) : 1 ≤ (escapeChar c).data.length := by
  rw [escapeChar]
  split_ifs <;> simp

theorem concat_escape_length (l : List Char) :
    l.length ≤ (concatList (l.map escapeChar)).data.length := by
  induction l with
  | nil => simp
  | cons c t ih =>
    rw [List.map_cons,
      show concatList (escapeChar c :: t.map escapeChar)
        = escapeChar c ++ concatList (t.map escapeChar) from rfl,
      String.data_append, List.length_append, List.length_cons]
    have := escapeChar_length c
    omega

theorem dumpStr_length (s : String) : s.data.length + 2 ≤ (dumpStr s).data.length := by
  have h2 := dumpStr_data_append s []
  rw [List.append_nil] at h2
  rw [h2]
  simp only [List.length_cons, List.length_append, List.length_nil]
  have := concat_escape_length s.data
  omega

theorem segJson_length (lvl : Nat) (s : Segment) :
    s.text.data.length + 10 ≤ (dumpVal lvl (segJson s)).data.length := by
  have h2 := segJson_data lvl s []
  rw [List.append_nil] at h2
  rw [h2]
  simp only [List.length_cons, List.length_append]
  have := dumpStr_length s.text
  omega

theorem dumpItems_segs_length (lvl : Nat) :
    ∀ (ss : List Segment) (s : Segment),
      segsFuel (s :: ss) ≤ (dumpItems (lvl + 1) (segsToJson (s :: ss))).data.length := by
  intro ss
  induction ss with
  | nil =>
    intro s
    have hd : (dumpItems (lvl + 1) (segsToJson [s])).data
        = (indentStr (lvl + 1)).data ++ (dumpVal (lvl + 1) (segJson s)).data := by
      simp only [segsToJson, segJson, dumpItems, String.data_append]
    rw [hd, List.length_append]
    have := segJson_length (lvl + 1) s
    simp only [segsFuel]
    omega
  | cons s2 ss ih =>
    intro s
    have hd : (dumpItems (lvl + 1) (segsToJson (s :: s2 :: ss))).data
        = (indentStr (lvl + 1)).data ++ ((dumpVal (lvl + 1) (segJson s)).data
          ++ (",\n".data ++ (dumpItems (lvl + 1) (segsToJson (s2 :: ss))).data)) := by
      simp only [segsToJson, segJson, dumpItems, String.data_append, List.append_assoc]
    rw [hd]
    simp only [List.length_append]
    have h1 := segJson_length (lvl + 1) s
    have h2 := ih s2
    have hc : ([',', '\n'] : List Char).length = 2 := rfl
    have hc2 : ((",\n" : String).data).length = 2 := rfl
    simp only [segsFuel] at h2 ⊢
    omega

theorem dumps_length (r : PyResult) :
    r.text.data.length + r.language.data.length + segsFuel r.segments + 16
      ≤ (dumps (jsonOutput r)).data.length + 1 := by
  have h2 := jsonOutput_data r []
  rw [List.append_nil] at h2
  rw [h2]
  simp only [List.length_cons, List.length_append]
  have ht := dumpStr_length r.text
  have hl := dumpStr_length r.language
  have harr : segsFuel r.segments ≤ (dumpVal 1 (.arr (segsToJson r.segments))).data.length := by
    cases hsg : r.segments with
    | nil => simp [segsFuel]
    | cons s ss =>
      have h3 := arrDump_data 1 s ss []
      rw [List.append_nil] at h3
      rw [h3]
      simp only [List.length_cons, List.length_append]
      have := dumpItems_segs_length 1 ss s
      omega
  omega

theorem json_loads_dumps (r : PyResult)
    (hsegs : ∀ u ∈ r.segments, decimalRepresentable u.start ∧ decimalRepresentable u.end_) :
    json_loads (dumps (jsonOutput r)) = some (jsonOutput r) := by
  have h := parseVal_jsonOutput r hsegs ((dumps (jsonOutput r)).data.length + 1) []
    (by have := dumps_length r; omega)
  rw [List.append_nil] at h
  rw [json_loads, h]
  rfl


/-! ### C6: JSON rendering round-trip -/

theorem segsOfJson_segsToJson (segs : List Segment) :
    segsOfJson (segsToJson segs) = some (segs.map fun s => (s.start, s.end_, s.text)) := by
  induction segs with
  | nil => rfl
  | cons s rest ih => simp [segsToJson, segsOfJson, segOfJson, ih]

set_option maxRecDepth 100000 in
/-- C6: the JSON rendering round-trips. For every TranscriptionResult whose
segment timestamps are nonnegative terminating decimals (as every value
printed by Python repr of a nonnegative float is), parsing the emitted
bytes with the modelled `json.loads` returns exactly the emitted object,
and decoding that object recovers keys `text`, `language`, `segments` in
that order, with the segments list of the same length and the same
per-item `start`, `end`, `text` as the input and every other Segment field
absent (decoding demands exactly those three keys). Non-ASCII characters
pass through the string escaper unchanged, and the `json` branch of
`save_transcription` emits exactly the 2-space-indented unescaped document
for the unicode sample, whose bytes parse back to the emitted object. -/
theorem C6_json_roundtrip :
    (∀ r : PyResult,
      (∀ s ∈ r.segments, decimalRepresentable s.start ∧ decimalRepresentable s.end_) →
      json_loads (dumps (jsonOutput r)) = some (jsonOutput r) ∧
      decodeOutput (jsonOutput r) =
        some (r.text, r.language, r.segments.map fun s => (s.start, s.end_, s.text))) ∧
    (∀ c : Char, 0x80 ≤ c.toNat → escapeChar c = String.singleton c) ∧
    save_transcription sampleUnicode "json" = Except.ok (some jsonExpected) ∧
    json_loads jsonExpected = some (jsonOutput sampleUnicode) := by
  refine ⟨fun r hr => ⟨json_loads_dumps r hr, ?_⟩, fun c hc => ?_, by decide, by decide⟩
  · show (segsOfJson (segsToJson r.segments)).map _ = _
    rw [segsOfJson_segsToJson]
    rfl
  · have hne : ∀ d : Char, d.toNat < 0x80 → c ≠ d := by
      intro d hd he
      rw [he] at hc
      omega
    rw [escapeChar, if_neg (hne '"' (by decide)), if_neg (hne '\\' (by decide)),
      if_neg (hne '\n' (by decide)), if_neg (hne '\t' (by decide)),
      if_neg (hne '\r' (by decide)), if_neg (by omega), if_neg (by omega),
      if_neg (by omega)]

set_option maxRecDepth 100000 in
/-- Witness for C6: the round-trip theorem applied at the unicode sample,
whose segment bounds are representable decimals, and at the non-ASCII
character é. -/
theorem C6_witness :
    (∀ s ∈ sampleUnicode.segments, decimalRepresentable s.start ∧ decimalRepresentable s.end_) ∧
    json_loads (dumps (jsonOutput sampleUnicode)) = some (jsonOutput sampleUnicode) ∧
    decodeOutput (jsonOutput sampleUnicode) =
      some (sampleUnicode.text, sampleUnicode.language,
        sampleUnicode.segments.map fun s => (s.start, s.end_, s.text)) ∧
    0x80 ≤ 'é'.toNat ∧ escapeChar 'é' = String.singleton 'é' :=
  ⟨by decide, (C6_json_roundtrip.1 sampleUnicode (by decide)).1,
   (C6_json_roundtrip.1 sampleUnicode (by decide)).2,
   by decide, C6_json_roundtrip.2.1 'é' (by decide)⟩

/-! ### C7: WebVTT rendering -/

theorem padZero_digit (w n : Nat) : ∀ c ∈ (padZero w n).data, c.isDigit = true := by
  intro c hc
  rw [padZero, String.data_append] at hc
  rcases List.mem_append.1 hc with h1 | h2
  · have := List.eq_of_mem_replicate h1
    subst this
    decide
  · exact natRepr_digit n c h2

theorem format_srt_timestamp_data (q : ℚ) :
    (format_srt_timestamp q).data
      = (padZero 2 ⌊q / 3600⌋.toNat).data
        ++ ':' :: ((padZero 2 ⌊pymod q 3600 / 60⌋.toNat).data
        ++ ':' :: ((padZero 2 ⌊pymod q 60⌋.toNat).data
        ++ ',' :: (padZero 3 ⌊pymod q 1 * 1000⌋.toNat).data)) := by
  rw [format_srt_timestamp]
  simp only [String.data_append, List.append_assoc]
  rfl

theorem format_srt_timestamp_chars (q : ℚ) :
    ∀ c ∈ (format_srt_timestamp q).data, c.isDigit = true ∨ c = ':' ∨ c = ',' := by
  intro c hc
  rw [format_srt_timestamp_data] at hc
  rcases List.mem_append.1 hc with h | h
  · exact Or.inl (padZero_digit _ _ c h)
  rcases List.mem_cons.1 h with rfl | h
  · exact Or.inr (Or.inl rfl)
  rcases List.mem_append.1 h with h | h
  · exact Or.inl (padZero_digit _ _ c h)
  rcases List.mem_cons.1 h with rfl | h
  · exact Or.inr (Or.inl rfl)
  rcases List.mem_append.1 h with h | h
  · exact Or.inl (padZero_digit _ _ c h)
  rcases List.mem_cons.1 h with rfl | h
  · exact Or.inr (Or.inr rfl)
  · exact Or.inl (padZero_digit _ _ c h)

theorem tsRange_data (a b : ℚ) :
    (tsRange a b).data
      = (format_srt_timestamp a).data
        ++ ' ' :: '-' :: '-' :: '>' :: ' ' :: (format_srt_timestamp b).data := by
  rw [tsRange]
  simp only [String.data_append, List.append_assoc]
  rfl

theorem colon_mem_tsRange (a b : ℚ) : ':' ∈ (tsRange a b).data := by
  rw [tsRange_data]
  refine List.mem_append.2 (Or.inl ?_)
  rw [format_srt_timestamp_data]
  exact List.mem_append.2 (Or.inr (List.mem_cons_self ':' _))

theorem tsRange_no_newline (a b : ℚ) : '\n' ∉ (tsRange a b).data := by
  intro hmem
  rw [tsRange_data] at hmem
  have hfmt : ∀ q : ℚ, '\n' ∉ (format_srt_timestamp q).data := by
    intro q hq
    rcases format_srt_timestamp_chars q _ hq with hd | hc | hc
    · exact absurd hd (by decide)
    · exact absurd hc (by decide)
    · exact absurd hc (by decide)
  rcases List.mem_append.1 hmem with h | h
  · exact hfmt a h
  rcases List.mem_cons.1 h with h0 | h
  · exact absurd h0 (by decide)
  rcases List.mem_cons.1 h with h0 | h
  · exact absurd h0 (by decide)
  rcases List.mem_cons.1 h with h0 | h
  · exact absurd h0 (by decide)
  rcases List.mem_cons.1 h with h0 | h
  · exact absurd h0 (by decide)
  rcases List.mem_cons.1 h with h0 | h
  · exact absurd h0 (by decide)
  · exact hfmt b h

theorem isNumericLine_eq_false_of_mem {l : List Char} {c : Char} (hc : c ∈ l)
    (hd : c.isDigit = false) : isNumericLine l = false := by
  rw [isNumericLine]
  have hall : l.all Char.isDigit = false := by
    rcases hB : l.all Char.isDigit with _ | _
    · rfl
    · rw [List.all_eq_true] at hB
      rw [hB c hc] at hd
      exact absurd hd (by decide)
  rw [hall, Bool.and_false]

theorem tsRange_not_numeric (a b : ℚ) : isNumericLine (tsRange a b).data = false :=
  isNumericLine_eq_false_of_mem (colon_mem_tsRange a b) (by decide)

theorem splitLines_append (a b : List Char) (h : '\n' ∉ a) :
    splitLines (a ++ '\n' :: b) = a :: splitLines b := by
  induction a with
  | nil =>
    show splitLines ('\n' :: b) = [] :: splitLines b
    rw [splitLines, if_pos rfl]
  | cons c a2 ih =>
    have hc : ¬(c = '\n') := fun hcc => h (hcc ▸ List.mem_cons_self c a2)
    have h2 : '\n' ∉ a2 := fun hm => h (List.mem_cons_of_mem _ hm)
    rw [List.cons_append, splitLines, if_neg hc, ih h2]

theorem splitLines_cons_newline (b : List Char) :
    splitLines ('\n' :: b) = [] :: splitLines b := by
  rw [splitLines, if_pos rfl]

theorem vtt_lines_not_numeric (segs : List Segment)
    (h : ∀ s ∈ segs, '\n' ∉ (pyStrip s.text).data ∧
      isNumericLine (pyStrip s.text).data = false) :
    ∀ l ∈ splitLines (concatList (segs.map vttCue)).data, isNumericLine l = false := by
  induction segs with
  | nil =>
    intro l hl
    rw [show splitLines (concatList (List.map vttCue [])).data = [[]] from rfl,
      List.mem_singleton] at hl
    subst hl
    rfl
  | cons s rest ih =>
    intro l hl
    have hdata : (concatList ((s :: rest).map vttCue)).data
        = (tsRange s.start s.end_).data
          ++ '\n' :: ((pyStrip s.text).data
          ++ '\n' :: ('\n' :: (concatList (rest.map vttCue)).data)) := by
      show (vttCue s ++ concatList (rest.map vttCue)).data = _
      rw [vttCue]
      simp only [String.data_append, List.append_assoc]
      rfl
    rw [hdata, splitLines_append _ _ (tsRange_no_newline _ _),
      splitLines_append _ _ (h s (List.mem_cons_self s rest)).1,
      splitLines_cons_newline] at hl
    rcases List.mem_cons.1 hl with rfl | hl
    · exact tsRange_not_numeric _ _
    rcases List.mem_cons.1 hl with rfl | hl
    · exact (h s (List.mem_cons_self s rest)).2
    rcases List.mem_cons.1 hl with rfl | hl
    · rfl
    · exact ih (fun s2 hs2 => h s2 (List.mem_cons_of_mem _ hs2)) l hl

/-- C7: for every result, the WebVTT rendering written by
`save_transcription` is the literal header `WEBVTT`, a blank line, then for
each segment in order the timestamp range line (in the SRT `HH:MM:SS,mmm`
format) and the stripped text separated by blank lines — no cue-index
lines are emitted; and provided no stripped segment text contains a
newline or is itself a bare number, no line of the whole output is
numeric (unlike SRT, whose cues start with numeric index lines). -/
theorem C7_vtt_render (r : PyResult)
    (h : ∀ s ∈ r.segments, '\n' ∉ (pyStrip s.text).data ∧
      isNumericLine (pyStrip s.text).data = false) :
    save_transcription r "vtt"
      = Except.ok (some ("WEBVTT\n\n" ++ concatList (r.segments.map vttCue))) ∧
    (∀ l ∈ splitLines (vttRender r).data, isNumericLine l = false) := by
  constructor
  · rw [save_transcription_vtt, vttRender]
  · intro l hl
    have hdata : (vttRender r).data
        = "WEBVTT".data ++ '\n' :: ('\n' :: (concatList (r.segments.map vttCue)).data) :=
      rfl
    rw [hdata, splitLines_append _ _ (by decide), splitLines_cons_newline] at hl
    rcases List.mem_cons.1 hl with rfl | hl
    · decide
    rcases List.mem_cons.1 hl with rfl | hl
    · rfl
    · exact vtt_lines_not_numeric r.segments h l hl

/-- Witness for C7 on the specification's worked example. -/
theorem C7_witness :
    (∀ s ∈ sampleResult.segments, '\n' ∉ (pyStrip s.text).data ∧
      isNumericLine (pyStrip s.text).data = false) ∧
    save_transcription sampleResult "vtt"
      = Except.ok (some ("WEBVTT\n\n" ++ concatList (sampleResult.segments.map vttCue))) :=
  ⟨by decide, (C7_vtt_render sampleResult (by decide)).1⟩

/-! ### C9: YouTube URL classification -/

theorem mem_patAlts_iff (p : List Char) :
    p ∈ patAlts ↔ ∃ sc w hst t, sc ∈ schemeAlts ∧ w ∈ wwwAlts ∧ hst ∈ hostAlts ∧
      t ∈ tldAlts ∧ p = sc ++ w ++ hst ++ '.' :: (t ++ ['/']) := by
  rw [patAlts]
  simp only [List.mem_flatMap, List.mem_map]
  constructor
  · rintro ⟨sc, hsc, w, hw, hst, hh, t, ht, rfl⟩
    exact ⟨sc, w, hst, t, hsc, hw, hh, ht, rfl⟩
  · rintro ⟨sc, w, hst, t, hsc, hw, hh, ht, rfl⟩
    exact ⟨sc, hsc, w, hw, hst, hh, t, ht, rfl⟩

/-- C9: `is_youtube_url` returns true exactly when its argument contains,
anywhere as a substring, an optional `http://`/`https://` scheme, optional
`www.`, one of the hostnames youtube/youtu/youtube-nocookie, a dot, `com`
or `be`, and a slash (the semantics of `re.search` on the source's
pattern); consequently the local-looking file path
`my_youtube.com/clip.mp4` is classified as a YouTube URL and `main` routes
it to the downloader instead of local-file resolution. -/
theorem C9_is_youtube_url :
    (∀ s : String, is_youtube_url s = true ↔ ContainsYoutubePattern s) ∧
    is_youtube_url "my_youtube.com/clip.mp4" = true ∧
    chooseRoute "my_youtube.com/clip.mp4" = Route.download := by
  refine ⟨fun s => ?_, by decide, by decide⟩
  rw [is_youtube_url, List.any_eq_true, ContainsYoutubePattern]
  constructor
  · rintro ⟨t, ht, hmatch⟩
    rw [List.mem_tails] at ht
    rw [matchCore, List.any_eq_true] at hmatch
    obtain ⟨p, hp, hpre⟩ := hmatch
    rw [List.isPrefixOf_iff_prefix] at hpre
    have hinf : p <:+: s.data := List.infix_iff_prefix_suffix.2 ⟨t, hpre, ht⟩
    obtain ⟨pre, post, hs⟩ := hinf
    obtain ⟨sc, w, hst, tl, hsc, hw, hh, htl, rfl⟩ := (mem_patAlts_iff p).1 hp
    exact ⟨pre, sc, w, hst, tl, post, hsc, hw, hh, htl, hs.symm⟩
  · rintro ⟨pre, sc, w, hst, tl, post, hsc, hw, hh, htl, hs⟩
    have hmem : sc ++ w ++ hst ++ '.' :: (tl ++ ['/']) ∈ patAlts :=
      (mem_patAlts_iff _).2 ⟨sc, w, hst, tl, hsc, hw, hh, htl, rfl⟩
    have hinf : sc ++ w ++ hst ++ '.' :: (tl ++ ['/']) <:+: s.data :=
      ⟨pre, post, hs.symm⟩
    obtain ⟨t, hpre, hsuf⟩ := List.infix_iff_prefix_suffix.1 hinf
    refine ⟨t, (List.mem_tails _ _).2 hsuf, ?_⟩
    rw [matchCore, List.any_eq_true]
    exact ⟨_, hmem, List.isPrefixOf_iff_prefix.2 hpre⟩

/-- Witness for C9: extracting the pattern decomposition of `youtu.be/x`. -/
theorem C9_witness : ContainsYoutubePattern "youtu.be/x" :=
  (C9_is_youtube_url.1 "youtu.be/x").mp (by decide)


end Transcribe
